import Mathlib

/-!
Verification of the image-sorter program (`src/main.rs`).

The Rust program is shallowly embedded below:
* file names are lists of characters, paths are lists of path components;
* the `std::path` file-name operations (`file_stem`, `extension`,
  `set_file_name`, `set_extension`) are modelled following the Rust
  standard library semantics, since the conflict-renaming logic of the program
  depends on them;
* the date regular expression `(?P<y>20[012]\d)\-?(?P<m>[01]\d)\-?(?P<d>\d{2})`
  is modelled by an explicit matcher with the leftmost-first, greedy, non-overlapping iteration semantics;
* the filesystem is an explicit `World` state (files with sizes,
  directories, plus injected stat/operation failures), and every
  `unwrap`/`expect` on a fallible filesystem call is modelled as an
  explicit `panicked` outcome;
* the interactive prompts and the external metadata readers (exif,
  ffprobe, chrono parsing of video timestamps) are services outside the
  program (its spec treats them as external collaborators); they enter
  the model as per-file oracle data.
-/

deriving instance DecidableEq for Except

namespace ImageSorter

/-- A file name (one path component), as a list of characters. -/
abbrev FName := List Char

/-- A filesystem path, as its list of components. -/
abbrev PathBuf := List FName

/-- Characters of a string literal. -/
def toL (s : String) : FName := s.toList

/-- Outcome of a computation that may hit a Rust `panic`
(`unwrap`/`expect` on an `Err`, or a panicking chrono constructor). -/
inductive PanicOr (α : Type) : Type
  | panicked : PanicOr α
  | ok (a : α) : PanicOr α
  deriving DecidableEq, Repr

/-- Model of `chrono::NaiveDateTime`, with the fields the program uses. -/
structure NaiveDateTime where
  year : Int
  month : Nat
  day : Nat
  hour : Nat
  minute : Nat
  second : Nat
  deriving DecidableEq, Repr

/-- Leap-year test of the proleptic Gregorian calendar (as in chrono). -/
def isLeapYear (y : Int) : Bool :=
  y % 4 = 0 && (y % 100 ≠ 0 || y % 400 = 0)

/-- Days of month `m` of year `y` (months counted 1..12). -/
def daysInMonth (y : Int) (m : Nat) : Nat :=
  if m = 2 then (if isLeapYear y then 29 else 28)
  else if m = 4 ∨ m = 6 ∨ m = 9 ∨ m = 11 then 30
  else 31

/-- Model of `chrono::NaiveDate::from_ymd_opt` combined with midnight, returning the
date-time `y-m-d 00:00:00` when valid. `NaiveDate::from_ymd` is this
followed by `.expect(..)`, i.e. a panic on `none`. -/
def from_ymd_hms0 (y : Int) (m d : Nat) : Option NaiveDateTime :=
  if 1 ≤ m ∧ m ≤ 12 ∧ 1 ≤ d ∧ d ≤ daysInMonth y m then
    some ⟨y, m, d, 0, 0, 0⟩
  else none

/-! ## Rust `std::path` file-name semantics

`rsplit_file_at_dot` splits a file name at its last dot, with the standard
two special cases of the standard library: the file name `..`, and a file name whose
only dot is the leading one.  `file_stem` is `before.or(after)` and
`extension` is `before.and(after)` of that split. -/

/-- Split a character list at its last `'.'`:
`some (before, after)` when a dot occurs, `none` otherwise. -/
def splitAtLastDotAux : List Char → Option (List Char × List Char)
  | [] => none
  | c :: cs =>
    match splitAtLastDotAux cs with
    | some (b, a) => some (c :: b, a)
    | none => if c = '.' then some ([], cs) else none

/-- Rust `rsplit_file_at_dot` on a file name. -/
def rsplit_file_at_dot (f : FName) : Option FName × Option FName :=
  if f = toL ".." then (some f, none)
  else
    match splitAtLastDotAux f with
    | none => (none, some f)
    | some (b, a) => if b = [] then (some f, none) else (some b, some a)

/-- Rust `Path::file_stem` restricted to a file name. -/
def file_stem (f : FName) : Option FName :=
  match rsplit_file_at_dot f with
  | (some b, _) => some b
  | (none, a) => a

/-- Rust `Path::extension` restricted to a file name. -/
def extensionOf (f : FName) : Option FName :=
  match rsplit_file_at_dot f with
  | (some _, a) => a
  | (none, _) => none

/-- Rust `PathBuf::set_extension` acting on a file name: truncate to the
stem, then (for a nonempty extension) append a dot and the extension. -/
def set_extension_name (f e : FName) : FName :=
  match file_stem f with
  | some st => if e = [] then st else st ++ '.' :: e
  | none => f

/-- Last component of a path, as `file_name().expect(..)` in the program. -/
def lastComponent (p : PathBuf) : FName := p.getLastD []

/-- All components but the last, as `parent().expect(..)` in the program. -/
def parentOf (p : PathBuf) : PathBuf := p.dropLast

/-- Rust `PathBuf::set_file_name` on a path with a file name. -/
def set_file_name (p : PathBuf) (n : FName) : PathBuf := p.dropLast ++ [n]

/-- Embedding of `change_file_name` from `main.rs`: set the file name, then re-apply
the extension of the original path (when it had one) with `set_extension`. -/
def change_file_name (p : PathBuf) (name : FName) : PathBuf :=
  let result := set_file_name p name
  match extensionOf (lastComponent p) with
  | some ext => set_file_name result (set_extension_name name ext)
  | none => result

/-- Embedding of `create_alternative_path` from `main.rs`: append `_new` to the file
stem and rebuild the file name via `change_file_name`. -/
def create_alternative_path (p : PathBuf) : PathBuf :=
  let new_name := ((file_stem (lastComponent p)).getD (lastComponent p)) ++ toL "_new"
  change_file_name p new_name

/-- The file-name transformation performed by `create_alternative_path`,
as a function on the file name alone. -/
def alternative_name (f : FName) : FName :=
  let new_name := ((file_stem f).getD f) ++ toL "_new"
  match extensionOf f with
  | some ext => set_extension_name new_name ext
  | none => new_name

/-! ## The date regular expression

`main.rs` builds `(?P<y>20[012]\d)\-?(?P<m>[01]\d)\-?(?P<d>\d{2})` once and
uses `captures_iter(..).count()` and `captures(..)` on file names.  The
matcher below implements this concrete pattern with the semantics of the
regex crate: at each position the alternatives are tried in priority order
(the optional dashes are greedy), the scan is left to right, and
iteration of matches is non-overlapping, resuming after each match. -/

/-- Digit test. -/
def isDig (c : Char) : Bool := '0' ≤ c && c ≤ '9'

/-- Numeric value of a digit character. -/
def digVal (c : Char) : Nat := c.toNat - 48

/-- Match `[01]\d\-?\d{2}` at the head of `l`; returns the consumed
length together with the captured month value. -/
def matchMonthDay (l : List Char) : Option (Nat × Nat) :=
  match l with
  | m1 :: m2 :: rest =>
    if (m1 = '0' ∨ m1 = '1') ∧ isDig m2 then
      let m := digVal m1 * 10 + digVal m2
      match rest with
      | '-' :: d1 :: d2 :: _ => if isDig d1 ∧ isDig d2 then some (5, m) else none
      | d1 :: d2 :: _ => if isDig d1 ∧ isDig d2 then some (4, m) else none
      | _ => none
    else none
  | _ => none

/-- Match `\-?[01]\d\-?\d{2}` at the head of `l` (greedy first dash). -/
def matchDashMonthDay (l : List Char) : Option (Nat × Nat) :=
  match l with
  | '-' :: rest =>
    match matchMonthDay rest with
    | some (len, m) => some (len + 1, m)
    | none => matchMonthDay l
  | _ => matchMonthDay l

/-- Match the full date pattern at the head of `l`; returns the length of
the match and the captured `(year, month)`. -/
def matchDateAt (l : List Char) : Option (Nat × Nat × Nat) :=
  match l with
  | '2' :: '0' :: c3 :: c4 :: rest =>
    if (c3 = '0' ∨ c3 = '1' ∨ c3 = '2') ∧ isDig c4 then
      match matchDashMonthDay rest with
      | some (len, m) => some (len + 4, 2000 + digVal c3 * 10 + digVal c4, m)
      | none => none
    else none
  | _ => none

/-- Scan for non-overlapping matches left to right; the second argument
counts positions still covered by the previous match and skipped. -/
def countDateAux : List Char → Nat → Nat
  | [], _ => 0
  | _ :: cs, k + 1 => countDateAux cs k
  | c :: cs, 0 =>
    match matchDateAt (c :: cs) with
    | some (len, _, _) => 1 + countDateAux cs (len - 1)
    | none => countDateAux cs 0

/-- Number of non-overlapping matches of the date pattern in `l`
(`captures_iter(..).count()`). -/
def countDateMatches (l : List Char) : Nat := countDateAux l 0

/-- Captured `(year, month)` of the leftmost match (`captures(..)`). -/
def firstDateMatch (l : List Char) : Option (Nat × Nat) :=
  match l with
  | [] => none
  | c :: cs =>
    match matchDateAt (c :: cs) with
    | some (_, y, m) => some (y, m)
    | none => firstDateMatch cs

/-! ## Data model -/

/-- Run mode (`enum Mode`). -/
inductive Mode : Type
  | DryRun | Move | Copy
  deriving DecidableEq, Repr

/-- Conflict resolution mode (`enum FileConflictResolutionMode`). -/
inductive FileConflictResolutionMode : Type
  | Choose | KeepSource | KeepTarget | KeepBoth
  deriving DecidableEq, Repr

/-- Embedding of `struct Options`. -/
structure Options where
  verbose : Bool
  mode : Mode
  source_folder : PathBuf
  target_folder : PathBuf
  include_unsupported_file_types : Bool
  file_conflict_resolution_mode : FileConflictResolutionMode
  media_creation_date_file_creation_fallback : Bool
  delete_skipped_source_duplicates : Bool
  deriving DecidableEq, Repr

/-- The answer of the operator to the interactive conflict prompt (the values
`1`, `2`, `3` eventually accepted by the input loop). -/
inductive ChooseAnswer : Type
  | overrideTarget | skipSource | keepBothFiles
  deriving DecidableEq, Repr

/-- The answer of the operator to the date-fallback prompt: accept the file
timestamp, enter year and month manually (as parsed from the validated
4-digit/2-digit input loops), or skip the file. -/
inductive FallbackAnswer : Type
  | useFileDate | manual (y : Int) (m : Nat) | skipFile
  deriving DecidableEq, Repr

/-- Embedded image metadata, as the display strings of the three exif
date fields the program queries (external metadata-reader collaborator). -/
structure ExifData where
  dateTimeOriginal : Option String
  dateTime : Option String
  dateTimeDigitized : Option String
  deriving DecidableEq, Repr

/-- Per-file oracle data for the external collaborators: the exif reader,
the ffprobe video reader (with the chrono rfc3339-to-local conversion), the
filesystem modification/creation timestamp, and the date-fallback
answer of the operator. -/
structure EntryMeta where
  exifData : Option ExifData
  ffprobeOk : Bool
  videoCreationLocal : Option NaiveDateTime
  fsTime : Option NaiveDateTime
  fallbackAnswer : FallbackAnswer
  deriving DecidableEq, Repr

/-- One candidate file of the run: its source path and its oracle data. -/
structure Entry where
  source_path : PathBuf
  meta : EntryMeta
  deriving DecidableEq, Repr

/-! ## Filesystem model -/

/-- Association-list lookup of a path among files. -/
def lookupP : List (PathBuf × Nat) → PathBuf → Option Nat
  | [], _ => none
  | (k, v) :: t, p => if k = p then some v else lookupP t p

/-- Remove every entry of a path from a file list. -/
def removeP (l : List (PathBuf × Nat)) (p : PathBuf) : List (PathBuf × Nat) :=
  l.filter (fun kv => kv.1 ≠ p)

/-- The filesystem state: files with their byte sizes, existing
directories, and the injected failures (paths whose `metadata()` stat
fails, and paths on which mutating operations fail). -/
structure World where
  files : List (PathBuf × Nat)
  dirs : List PathBuf
  statErr : List PathBuf
  opErr : List PathBuf
  deriving DecidableEq, Repr

/-- Model of `Path::exists`: `fs::metadata(..).is_ok()`. -/
def pathExists (w : World) (p : PathBuf) : Bool :=
  if p ∈ w.statErr then false else (lookupP w.files p).isSome

/-- Model of `metadata().map(|m| m.len())`: `none` models the stat `Err`. -/
def metadataLen (w : World) (p : PathBuf) : Option Nat :=
  if p ∈ w.statErr then none else lookupP w.files p

/-- Model of `fs::remove_file`. -/
def fsRemoveFile (w : World) (p : PathBuf) : Option World :=
  if p ∈ w.opErr then none
  else match lookupP w.files p with
    | some _ => some { w with files := removeP w.files p }
    | none => none

/-- Model of `fs::rename`. -/
def fsRename (w : World) (src dst : PathBuf) : Option World :=
  if src ∈ w.opErr ∨ dst ∈ w.opErr then none
  else match lookupP w.files src with
    | some sz => some { w with files := (dst, sz) :: removeP (removeP w.files src) dst }
    | none => none

/-- Model of `fs::copy`. -/
def fsCopy (w : World) (src dst : PathBuf) : Option World :=
  if src ∈ w.opErr ∨ dst ∈ w.opErr then none
  else match lookupP w.files src with
    | some sz => some { w with files := (dst, sz) :: removeP w.files dst }
    | none => none

/-- Model of `fs::create_dir_all` on the parent directory. -/
def fsCreateDirAll (w : World) (d : PathBuf) : Option World :=
  if d ∈ w.opErr then none
  else some { w with dirs := if d ∈ w.dirs then w.dirs else d :: w.dirs }

/-- Result of a program step: a Rust panic, exhaustion of the recursion
fuel (the step would recurse beyond it), a recoverable `Err(String)`, or
a value — the last two carrying the filesystem state they leave behind. -/
inductive Res (α : Type) : Type
  | panicked : Res α
  | fuelOut : Res α
  | error (msg : String) (w : World) : Res α
  | ok (a : α) (w : World) : Res α
  deriving DecidableEq, Repr

/-! ## File-type classification -/

/-- Lower-casing of an extension (`to_lowercase` on ASCII extensions). -/
def lowerName (f : FName) : FName := f.map Char.toLower

/-- Embedding of `is_supported_file_type`. -/
def is_supported_file_type (f : FName) : Bool :=
  match extensionOf f with
  | some e => lowerName e ∈ [toL "png", toL "jpg", toL "jpeg", toL "tif", toL "mp4", toL "mov"]
  | none => false

/-- Embedding of `is_image`. -/
def is_image (f : FName) : Bool :=
  match extensionOf f with
  | some e => lowerName e ∈ [toL "png", toL "jpg", toL "jpeg", toL "tif"]
  | none => false

/-- Embedding of `is_video`. -/
def is_video (f : FName) : Bool :=
  match extensionOf f with
  | some e => lowerName e ∈ [toL "mp4", toL "mov"]
  | none => false

/-! ## Date extraction -/

/-- An ASCII whitespace test (the characters `str::trim` strips in the
strings at hand). -/
def isWhite (c : Char) : Bool := c = ' ' ∨ c = '\t' ∨ c = '\n' ∨ c = '\r'

/-- Model of `str::trim` on the character list. -/
def trimChars (l : List Char) : List Char :=
  ((l.dropWhile isWhite).reverse.dropWhile isWhite).reverse

/-- Model of `NaiveDateTime::parse_from_str(s.trim(), "%Y-%m-%d %H:%M:%S")` for the
canonical zero-padded rendering produced by the exif reader
(external chrono collaborator, modelled on the strings the program
actually receives). -/
def parseNaiveDateTime (s : String) : Option NaiveDateTime :=
  match trimChars s.toList with
  | [y1, y2, y3, y4, '-', m1, m2, '-', d1, d2, ' ', h1, h2, ':', n1, n2, ':', s1, s2] =>
    if isDig y1 ∧ isDig y2 ∧ isDig y3 ∧ isDig y4 ∧ isDig m1 ∧ isDig m2 ∧ isDig d1 ∧
        isDig d2 ∧ isDig h1 ∧ isDig h2 ∧ isDig n1 ∧ isDig n2 ∧ isDig s1 ∧ isDig s2 then
      let y : Int := ((digVal y1 * 10 + digVal y2) * 10 + digVal y3) * 10 + digVal y4
      let mo := digVal m1 * 10 + digVal m2
      let d := digVal d1 * 10 + digVal d2
      let h := digVal h1 * 10 + digVal h2
      let mi := digVal n1 * 10 + digVal n2
      let se := digVal s1 * 10 + digVal s2
      if 1 ≤ mo ∧ mo ≤ 12 ∧ 1 ≤ d ∧ d ≤ daysInMonth y mo ∧ h < 24 ∧ mi < 60 ∧ se < 60 then
        some ⟨y, mo, d, h, mi, se⟩
      else none
    else none
  | _ => none

/-- Embedding of `extract_media_creation_time_from_filename`: fires only when
`captures_iter(..).count() == 1`; a single match yields the captured year
and month on the first of the month at midnight via `NaiveDate::from_ymd`
(which panics when the captured month is not a calendar month). -/
def extract_media_creation_time_from_filename (file_name : FName) :
    PanicOr (Option NaiveDateTime) :=
  match countDateMatches file_name with
  | 1 =>
    match firstDateMatch file_name with
    | some (y, m) =>
      match from_ymd_hms0 (y : Int) m 1 with
      | some dt => .ok (some dt)
      | none => .panicked
    | none => .ok none
  | _ => .ok none

/-- Embedding of `extract_media_creation_time_from_file_metadata`: the filesystem
timestamp (when present) is accepted directly under the
file-creation-fallback flag and otherwise submitted to the operator, whose
manual year/month entry goes through the panicking `NaiveDate::from_ymd`. -/
def extract_media_creation_time_from_file_metadata (meta : EntryMeta)
    (file_creation_fallback : Bool) : PanicOr (Option NaiveDateTime) :=
  match meta.fsTime with
  | none => .ok none
  | some date =>
    if file_creation_fallback then .ok (some date)
    else
      match meta.fallbackAnswer with
      | .useFileDate => .ok (some date)
      | .manual y m =>
        match from_ymd_hms0 y m 1 with
        | some dt => .ok (some dt)
        | none => .panicked
      | .skipFile => .ok none

/-- The embedded-metadata read of `extract_date_time` for an image: open
and parse the exif container, query `DateTimeOriginal`, else `DateTime`,
else `DateTimeDigitized` (in that order, as in `main.rs`), and parse the
chosen display string. -/
def image_metadata_date (meta : EntryMeta) : Except String NaiveDateTime :=
  match meta.exifData with
  | none => .error "exif container could not be read"
  | some ex =>
    match ex.dateTimeOriginal with
    | some s =>
      match parseNaiveDateTime s with
      | some dt => .ok dt
      | none => .error "parse error"
    | none =>
      match ex.dateTime with
      | some s =>
        match parseNaiveDateTime s with
        | some dt => .ok dt
        | none => .error "parse error"
      | none =>
        match ex.dateTimeDigitized with
        | some s =>
          match parseNaiveDateTime s with
          | some dt => .ok dt
          | none => .error "parse error"
        | none => .error "DateTime tag is missing."

/-- The fallback chain of `extract_date_time`:
`result_from_media_metadata.ok().or_else(filename).or_else(file_metadata)
.ok_or(..)`. -/
def date_time_fallbacks (file_name : FName) (meta : EntryMeta)
    (file_creation_fallback : Bool) (rmm : Except String NaiveDateTime) :
    PanicOr (Except String NaiveDateTime) :=
  match rmm with
  | .ok dt => .ok (.ok dt)
  | .error _ =>
    match extract_media_creation_time_from_filename file_name with
    | .panicked => .panicked
    | .ok (some dt) => .ok (.ok dt)
    | .ok none =>
      match extract_media_creation_time_from_file_metadata meta file_creation_fallback with
      | .panicked => .panicked
      | .ok (some dt) => .ok (.ok dt)
      | .ok none => .ok (.error "Could not determine a media file creation date.")

/-- Embedding of `extract_date_time`.  For a video, an `ffprobe` failure returns early
through `?`, skipping the fallbacks; any other metadata failure falls
through the chain. -/
def extract_date_time (file_name : FName) (meta : EntryMeta)
    (file_creation_fallback : Bool) : PanicOr (Except String NaiveDateTime) :=
  if is_image file_name then
    date_time_fallbacks file_name meta file_creation_fallback (image_metadata_date meta)
  else if is_video file_name then
    if meta.ffprobeOk then
      date_time_fallbacks file_name meta file_creation_fallback
        (match meta.videoCreationLocal with
         | some dt => .ok dt
         | none => .error "cannot read mp4 creation date time.")
    else .ok (.error "ffprobe failed")
  else
    date_time_fallbacks file_name meta file_creation_fallback
      (.error "Unsupported File Type")

/-! ## Placement resolution -/

/-- Embedding of `handle_file_exists_at_target`: called when the candidate target
exists.  Both `metadata().unwrap()` calls panic on a stat failure; equal
sizes mean the file is skipped (`None`) before any conflict-mode logic;
otherwise the conflict mode (or the answer of the operator under `Choose`)
decides. -/
def handle_file_exists_at_target (w : World) (source_path target_path : PathBuf)
    (conflict_mode : FileConflictResolutionMode) (answer : ChooseAnswer) :
    PanicOr (Option PathBuf) :=
  match metadataLen w source_path with
  | none => .panicked
  | some srcLen =>
    match metadataLen w target_path with
    | none => .panicked
    | some tgtLen =>
      if srcLen = tgtLen then .ok none
      else
        let alternative_new_path := create_alternative_path target_path
        match conflict_mode with
        | .Choose =>
          match answer with
          | .overrideTarget => .ok (some target_path)
          | .skipSource => .ok none
          | .keepBothFiles => .ok (some alternative_new_path)
        | .KeepSource => .ok (some target_path)
        | .KeepTarget => .ok none
        | .KeepBoth => .ok (some alternative_new_path)

/-- Embedding of `validate_and_resolve_path_problems`, with explicit recursion fuel
(the Rust function recurses unboundedly; `fuelOut` marks a call that
would recurse deeper than the given fuel).  On a skip (`None`) with the
delete-skipped-source-duplicates flag, the source file is removed in
`Move` mode, a dry-run line is printed in `DryRun` mode, and nothing
happens in any other mode. -/
def validate_and_resolve_path_problems (opts : Options) (answer : ChooseAnswer) :
    Nat → World → PathBuf → PathBuf → Res (Option PathBuf)
  | 0, _, _, _ => .fuelOut
  | fuel + 1, w, target_path_unverified, source_path =>
    if pathExists w target_path_unverified then
      match handle_file_exists_at_target w source_path target_path_unverified
          opts.file_conflict_resolution_mode answer with
      | .panicked => .panicked
      | .ok (some path_resolution) =>
        validate_and_resolve_path_problems opts answer fuel w path_resolution source_path
      | .ok none =>
        if opts.delete_skipped_source_duplicates then
          match opts.mode with
          | .DryRun => .ok none w
          | .Move =>
            match fsRemoveFile w source_path with
            | some w2 => .ok none w2
            | none => .error "could not remove source file" w
          | .Copy => .ok none w
        else .ok none w
    else .ok (some target_path_unverified) w

/-- Embedding of `handle_missing_parents`: create the parent directory of the target unless
it is already recorded in `target_parents`. -/
def handle_missing_parents (target_path : PathBuf) (target_parents : List PathBuf)
    (w : World) : Res Unit :=
  let parent := parentOf target_path
  if parent ∈ target_parents then .ok () w
  else
    match fsCreateDirAll w parent with
    | some w2 => .ok () w2
    | none => .error "could not create directory" w

/-- The candidate destination computed by `sort_file`:
`target_folder.join(year.to_string()).join(month.to_string()).join(file_name)`. -/
def target_path_unverified (opts : Options) (source_path : PathBuf)
    (date_time : NaiveDateTime) : PathBuf :=
  opts.target_folder ++
    [toL (toString date_time.year), toL (toString date_time.month),
      lastComponent source_path]

/-- Embedding of `sort_file`: compute the candidate destination, resolve conflicts,
and perform the filesystem effect of the mode on the validated path. -/
def sort_file (opts : Options) (answer : ChooseAnswer) (fuel : Nat)
    (source_path : PathBuf) (target_parents : List PathBuf)
    (date_time : NaiveDateTime) (w : World) : Res (Option PathBuf) :=
  let tp := target_path_unverified opts source_path date_time
  match validate_and_resolve_path_problems opts answer fuel w tp source_path with
  | .panicked => .panicked
  | .fuelOut => .fuelOut
  | .error m w2 => .error m w2
  | .ok none w2 => .ok none w2
  | .ok (some valid_path) w2 =>
    match opts.mode with
    | .DryRun => .ok (some valid_path) w2
    | .Move =>
      match handle_missing_parents valid_path target_parents w2 with
      | .panicked => .panicked
      | .fuelOut => .fuelOut
      | .error m w3 => .error m w3
      | .ok () w3 =>
        match fsRename w3 source_path valid_path with
        | some w4 => .ok (some valid_path) w4
        | none => .error "rename failed" w3
    | .Copy =>
      match handle_missing_parents valid_path target_parents w2 with
      | .panicked => .panicked
      | .fuelOut => .fuelOut
      | .error m w3 => .error m w3
      | .ok () w3 =>
        match fsCopy w3 source_path valid_path with
        | some w4 => .ok (some valid_path) w4
        | none => .error "copy failed" w3

/-- Per-file outcome reported by the driver. -/
inductive Report : Type
  | errorIn (p : PathBuf) (msg : String)
  | skippedFile
  | placed (src tgt : PathBuf)
  | unsupported (p : PathBuf)
  deriving DecidableEq, Repr

/-- The closure of `handle_file`, for one directory entry: filter by file
type, resolve the date, sort the file, and insert the target parent into
`target_parents` on success; a per-file `Err` is reported and processing
goes on. -/
def handle_file_one (opts : Options) (answer : ChooseAnswer) (fuel : Nat)
    (target_parents : List PathBuf) (w : World) (e : Entry) :
    Res (List PathBuf × Report) :=
  let source_path := e.source_path
  if is_supported_file_type (lastComponent source_path) ||
      opts.include_unsupported_file_types then
    match extract_date_time (lastComponent source_path) e.meta
        opts.media_creation_date_file_creation_fallback with
    | .panicked => .panicked
    | .ok (.error msg) => .ok (target_parents, .errorIn source_path msg) w
    | .ok (.ok date_time) =>
      match sort_file opts answer fuel source_path target_parents date_time w with
      | .panicked => .panicked
      | .fuelOut => .fuelOut
      | .error msg w2 => .ok (target_parents, .errorIn source_path msg) w2
      | .ok none w2 => .ok (target_parents, .skippedFile) w2
      | .ok (some target_file) w2 =>
        let parent := parentOf target_file
        .ok ((if parent ∈ target_parents then target_parents
              else parent :: target_parents), .placed source_path target_file) w2
  else .ok (target_parents, .unsupported source_path) w

/-- The run over the listed entries (the `visit_dirs` traversal feeding
`handle_file`): per-file reports accumulate; a panic aborts the run. -/
def run_loop (opts : Options) (answer : ChooseAnswer) (fuel : Nat) :
    List Entry → List PathBuf → World → Res (List PathBuf × List Report)
  | [], target_parents, w => .ok (target_parents, []) w
  | e :: es, target_parents, w =>
    match handle_file_one opts answer fuel target_parents w e with
    | .panicked => .panicked
    | .fuelOut => .fuelOut
    | .error m w2 => .error m w2
    | .ok (ps2, r) w2 =>
      match run_loop opts answer fuel es ps2 w2 with
      | .panicked => .panicked
      | .fuelOut => .fuelOut
      | .error m w3 => .error m w3
      | .ok (psf, rs) w3 => .ok (psf, r :: rs) w3

/-! ## Option parsing -/

/-- The mutable locals of `parse_options` while scanning `args`. -/
structure PState where
  mode : Mode
  mode_set : Bool
  verbose : Bool
  source_folder_str : Option String
  target_folder_str : Option String
  file_conflict_resolution_mode : FileConflictResolutionMode
  media_creation_date_file_creation_fallback : Bool
  delete_skipped_source_duplicates : Bool
  include_unsupported_file_types : Bool
  skip_read_next_value : Bool
  deriving DecidableEq, Repr

/-- The initial state of the scan (`skip_read_next_value` starts `true`,
so `args[0]` — the program name — is skipped). -/
def initPState : PState :=
  { mode := .Move, mode_set := false, verbose := false,
    source_folder_str := none, target_folder_str := none,
    file_conflict_resolution_mode := .Choose,
    media_creation_date_file_creation_fallback := false,
    delete_skipped_source_duplicates := false,
    include_unsupported_file_types := false,
    skip_read_next_value := true }

/-- The argument scan of `parse_options`; `exit_with_message` is the
`Except.error` outcome. -/
def parse_loop : List String → PState → Except String PState
  | [], st => .ok st
  | a :: rest, st =>
    if st.skip_read_next_value then
      parse_loop rest { st with skip_read_next_value := false }
    else if a = "--verbose" ∨ a = "-v" then
      parse_loop rest { st with verbose := true }
    else if a = "--dry-run" ∨ a = "-d" then
      if st.mode_set then .error "Only one mode can be chosen."
      else parse_loop rest { st with mode := .DryRun, mode_set := true }
    else if a = "--copy" ∨ a = "-c" then
      if st.mode_set then .error "Only one mode can be chosen."
      else parse_loop rest { st with mode := .Copy, mode_set := true }
    else if a = "--move" ∨ a = "-m" then
      if st.mode_set then .error "Only one mode can be chosen."
      else parse_loop rest { st with mode := .Move, mode_set := true }
    else if a = "--target" ∨ a = "-t" then
      parse_loop rest { st with target_folder_str := rest.head?, skip_read_next_value := true }
    else if a = "--conflict-mode" ∨ a = "-k" then
      parse_loop rest
        { st with
          file_conflict_resolution_mode :=
            match rest.head? with
            | some "both" => .KeepBoth
            | some "source" => .KeepSource
            | some "target" => .KeepTarget
            | _ => .Choose,
          skip_read_next_value := true }
    else if a = "--file-creation-fallback" ∨ a = "-s" then
      parse_loop rest { st with media_creation_date_file_creation_fallback := true }
    else if a = "--delete-skipped-source-duplicates" ∨ a = "-q" then
      parse_loop rest { st with delete_skipped_source_duplicates := true }
    else if a = "--include-unsupported-file-types" ∨ a = "-u" then
      parse_loop rest { st with include_unsupported_file_types := true }
    else if st.source_folder_str = none then
      parse_loop rest { st with source_folder_str := some a }
    else .error "Too many arguments given."

/-- Embedding of `parse_options`: scan the arguments, default the source folder to
`"."`, require a target folder, and require it to exist
(`targetExists` stands for `target_folder.exists()`). -/
def parse_options (targetExists : String → Bool) (args : List String) :
    Except String Options :=
  match parse_loop args initPState with
  | .error m => .error m
  | .ok st =>
    match st.target_folder_str with
    | none => .error "No target folder supplied."
    | some t =>
      if targetExists t then
        .ok { verbose := st.verbose, mode := st.mode,
              source_folder := [toL (st.source_folder_str.getD ".")],
              target_folder := [toL t],
              file_conflict_resolution_mode := st.file_conflict_resolution_mode,
              media_creation_date_file_creation_fallback :=
                st.media_creation_date_file_creation_fallback,
              delete_skipped_source_duplicates := st.delete_skipped_source_duplicates,
              include_unsupported_file_types := st.include_unsupported_file_types }
      else .error "Target folder does not exists or you are missing the required permissions."

/-! ## Analysis of the file-name split -/

/-- A name has an inner dot when its last dot is preceded by at least one
character; exactly then does `set_extension` truncate the `_new`-suffixed
stem (the stem of `stem ++ "_new"` differs from `stem ++ "_new"`). -/
def hasInnerDot (b : FName) : Bool :=
  match splitAtLastDotAux b with
  | some (x, _) => decide (x ≠ [])
  | none => false

/-- Candidates on which `alternative_name` grows the name: every name
except those with an extension and an inner-dotted stem. -/
def growName (f : FName) : Bool :=
  match rsplit_file_at_dot f with
  | (some b, some _) => !(hasInnerDot b)
  | _ => true

/-- The placement recursion relevant to claim C6: conflicts renamed with
`_new`, either by the `KeepBoth` configuration or by the operator always
answering `3` under `Choose`. -/
def KBcond (opts : Options) (answer : ChooseAnswer) : Prop :=
  opts.file_conflict_resolution_mode = .KeepBoth ∨
    (opts.file_conflict_resolution_mode = .Choose ∧ answer = .keepBothFiles)

/-! ## Concrete fixtures and auxiliary predicates used by the claim theorems -/

/-- Files whose name is at least as long as the current candidate name: the
measure that shrinks at each grow-class renaming step. -/
def lenGE (n : Nat) (kv : PathBuf × Nat) : Bool :=
  decide (n ≤ (lastComponent kv.1).length)

/-- The directories of the world never shrink across a program step
returning this result. -/
def preservesDirs {α : Type} (w : World) : Res α → Prop
  | .ok _ w2 => w.dirs ⊆ w2.dirs
  | .error _ w2 => w.dirs ⊆ w2.dirs
  | _ => True

/-- The command-line tokens that select a run mode. -/
def modeFlags : List String :=
  ["--dry-run", "-d", "--copy", "-c", "--move", "-m"]

def c1Opts : Options :=
  { verbose := false, mode := .Move, source_folder := [toL "source"],
    target_folder := [toL "target"], include_unsupported_file_types := false,
    file_conflict_resolution_mode := .Choose,
    media_creation_date_file_creation_fallback := false,
    delete_skipped_source_duplicates := false }

def c4World : World :=
  ⟨[([toL "s", toL "a.jpg"], 7), ([toL "t", toL "a.jpg"], 7)], [], [], []⟩

def c2Opts : Options :=
  { verbose := false, mode := .Copy, source_folder := [toL "s"],
    target_folder := [toL "t"], include_unsupported_file_types := false,
    file_conflict_resolution_mode := .KeepBoth,
    media_creation_date_file_creation_fallback := false,
    delete_skipped_source_duplicates := true }

def c2Src : PathBuf := [toL "s", toL "a.jpg"]

def c2Tgt : PathBuf := [toL "t", toL "a.jpg"]

def c2World : World := ⟨[(c2Src, 5), (c2Tgt, 5)], [], [], []⟩

def c2wOpts : Options := { c2Opts with mode := .Move }

def c3Meta : EntryMeta :=
  ⟨some ⟨none, some "2002-02-02 00:00:00", some "2001-01-01 00:00:00"⟩,
    true, none, none, .skipFile⟩

def c3wMeta : EntryMeta :=
  ⟨some ⟨none, some "2002-02-02 00:00:00", none⟩, true, none, none, .skipFile⟩

def c6Opts : Options :=
  { verbose := false, mode := .DryRun, source_folder := [toL "s"],
    target_folder := [toL "t"], include_unsupported_file_types := false,
    file_conflict_resolution_mode := .KeepBoth,
    media_creation_date_file_creation_fallback := false,
    delete_skipped_source_duplicates := false }

def c6World : World :=
  ⟨[([toL "t", toL "a.jpg"], 10), ([toL "t", toL "a_new.jpg"], 11),
      ([toL "s", toL "a.jpg"], 12)], [], [], []⟩

def c8Opts : Options :=
  { verbose := false, mode := .Move, source_folder := [toL "s"],
    target_folder := [toL "t"], include_unsupported_file_types := false,
    file_conflict_resolution_mode := .KeepBoth,
    media_creation_date_file_creation_fallback := false,
    delete_skipped_source_duplicates := false }

def c8World : World :=
  ⟨[([toL "s", toL "a.jpg"], 5), ([toL "t", toL "2023", toL "7", toL "a.jpg"], 6)],
    [], [[toL "s", toL "a.jpg"]], []⟩

def c8Entry : Entry :=
  ⟨[toL "s", toL "a.jpg"],
    ⟨some ⟨some "2023-07-15 12:00:00", none, none⟩, true, none, none, .skipFile⟩⟩

def c8Entry2 : Entry :=
  ⟨[toL "s", toL "b.jpg"],
    ⟨some ⟨some "2023-07-15 12:00:00", none, none⟩, true, none, none, .skipFile⟩⟩

def c8mOpts : Options :=
  { verbose := false, mode := .Move, source_folder := [toL "s"],
    target_folder := [toL "t"], include_unsupported_file_types := false,
    file_conflict_resolution_mode := .KeepBoth,
    media_creation_date_file_creation_fallback := false,
    delete_skipped_source_duplicates := false }

def c8mSrc : PathBuf := [toL "s", toL "a.jpg"]

def c8mTgt : PathBuf := [toL "t", toL "2023", toL "7", toL "a.jpg"]

def c8mEntry : Entry :=
  ⟨c8mSrc, ⟨some ⟨some "2023-07-15 12:00:00", none, none⟩, true, none, none, .skipFile⟩⟩

def c8mWorld : World := ⟨[(c8mSrc, 5)], [], [], [c8mTgt]⟩

def c8mWorld2 : World :=
  ⟨[(c8mSrc, 5)], [[toL "t", toL "2023", toL "7"]], [], [c8mTgt]⟩

def c8wEntry : Entry := ⟨[toL "s", toL "a.jpg"], ⟨none, true, none, none, .skipFile⟩⟩

def c8wWorld : World := ⟨[], [], [], []⟩

def c9Opts : Options :=
  { verbose := false, mode := .DryRun, source_folder := [toL "s"],
    target_folder := [toL "t"], include_unsupported_file_types := false,
    file_conflict_resolution_mode := .Choose,
    media_creation_date_file_creation_fallback := false,
    delete_skipped_source_duplicates := false }

def c9Entry : Entry :=
  ⟨[toL "s", toL "a.jpg"],
    ⟨some ⟨some "2023-07-15 12:00:00", none, none⟩, true, none, none, .skipFile⟩⟩

def c9World : World := ⟨[([toL "s", toL "a.jpg"], 5)], [], [], []⟩

def c9wOpts : Options := { c9Opts with mode := .Move }

def c9wWf : World :=
  ⟨[([toL "t", toL "2023", toL "7", toL "a.jpg"], 5)],
    [[toL "t", toL "2023", toL "7"]], [], []⟩

theorem splitAux_of_not_mem : ∀ (s : List Char), '.' ∉ s → splitAtLastDotAux s = none
  | [], _ => rfl
  | c :: cs, h => by
    have hc : ¬ c = '.' := fun e => h (e ▸ List.mem_cons_self c cs)
    have hcs : '.' ∉ cs := fun m => h (List.mem_cons_of_mem _ m)
    rw [splitAtLastDotAux, splitAux_of_not_mem cs hcs, if_neg hc]

theorem not_mem_of_splitAux_none : ∀ (s : List Char), splitAtLastDotAux s = none → '.' ∉ s
  | [], _ => by simp
  | c :: cs, h => by
    rw [splitAtLastDotAux] at h
    cases h2 : splitAtLastDotAux cs with
    | some ba => rw [h2] at h; exact absurd h (by simp)
    | none =>
      rw [h2] at h
      have hc : ¬ c = '.' := by
        intro e; rw [if_pos e] at h; exact absurd h (by simp)
      have hcs := not_mem_of_splitAux_none cs h2
      simp [List.mem_cons, hcs]
      intro e; exact hc e.symm

theorem splitAux_structure : ∀ (s b a : List Char),
    splitAtLastDotAux s = some (b, a) → s = b ++ '.' :: a ∧ '.' ∉ a
  | [], b, a, h => by simp [splitAtLastDotAux] at h
  | c :: cs, b, a, h => by
    rw [splitAtLastDotAux] at h
    cases h2 : splitAtLastDotAux cs with
    | some ba =>
      rw [h2] at h
      obtain ⟨b2, a2⟩ := ba
      simp only [Option.some.injEq, Prod.mk.injEq] at h
      obtain ⟨hb, ha⟩ := h
      obtain ⟨hcs, hna⟩ := splitAux_structure cs b2 a2 h2
      subst hb; subst ha; subst hcs
      exact ⟨rfl, hna⟩
    | none =>
      rw [h2] at h
      by_cases hc : c = '.'
      · rw [if_pos hc] at h
        simp only [Option.some.injEq, Prod.mk.injEq] at h
        obtain ⟨hb, ha⟩ := h
        subst hb; subst ha; subst hc
        exact ⟨rfl, not_mem_of_splitAux_none cs h2⟩
      · rw [if_neg hc] at h; exact absurd h (by simp)

theorem splitAux_append_left : ∀ (x a : List Char), '.' ∉ a →
    splitAtLastDotAux (x ++ '.' :: a) = some (x, a)
  | [], a, ha => by
    rw [List.nil_append, splitAtLastDotAux, splitAux_of_not_mem a ha, if_pos rfl]
  | c :: x, a, ha => by
    rw [List.cons_append, splitAtLastDotAux, splitAux_append_left x a ha]

theorem splitAux_append_dotless : ∀ (y s : List Char), '.' ∉ s →
    splitAtLastDotAux (y ++ s) =
      (splitAtLastDotAux y).map (fun p => (p.1, p.2 ++ s))
  | [], s, hs => by rw [List.nil_append, splitAux_of_not_mem s hs]; rfl
  | c :: y, s, hs => by
    rw [List.cons_append, splitAtLastDotAux,
      splitAux_append_dotless y s hs, splitAtLastDotAux]
    cases h : splitAtLastDotAux y with
    | some ba => rfl
    | none =>
      by_cases hc : c = '.' <;> simp [hc]

theorem rsplit_of_no_dot (f : FName) (h : '.' ∉ f) :
    rsplit_file_at_dot f = (none, some f) := by
  have hne : f ≠ toL ".." := by
    rintro rfl; exact h (by decide)
  rw [rsplit_file_at_dot, if_neg hne, splitAux_of_not_mem f h]

theorem rsplit_of_leading (f a : FName) (h : splitAtLastDotAux f = some ([], a))
    (hne : f ≠ toL "..") : rsplit_file_at_dot f = (some f, none) := by
  rw [rsplit_file_at_dot, if_neg hne, h]; simp

theorem rsplit_of_inner (f b a : FName) (h : splitAtLastDotAux f = some (b, a))
    (hb : b ≠ []) (hne : f ≠ toL "..") :
    rsplit_file_at_dot f = (some b, some a) := by
  rw [rsplit_file_at_dot, if_neg hne, h]; simp [hb]

theorem rsplit_exhaustive (f : FName) :
    (f = toL ".." ∧ rsplit_file_at_dot f = (some f, none))
    ∨ (f ≠ toL ".." ∧ '.' ∉ f ∧ rsplit_file_at_dot f = (none, some f))
    ∨ (∃ a, f ≠ toL ".." ∧ splitAtLastDotAux f = some ([], a) ∧
        rsplit_file_at_dot f = (some f, none))
    ∨ (∃ b a, f ≠ toL ".." ∧ b ≠ [] ∧ splitAtLastDotAux f = some (b, a) ∧
        rsplit_file_at_dot f = (some b, some a)) := by
  by_cases hdd : f = toL ".."
  · exact Or.inl ⟨hdd, by rw [rsplit_file_at_dot, if_pos hdd]⟩
  · cases h : splitAtLastDotAux f with
    | none =>
      exact Or.inr (Or.inl ⟨hdd, not_mem_of_splitAux_none f h,
        by rw [rsplit_file_at_dot, if_neg hdd, h]⟩)
    | some ba =>
      obtain ⟨b, a⟩ := ba
      by_cases hb : b = []
      · subst hb
        exact Or.inr (Or.inr (Or.inl ⟨a, hdd, rfl, rsplit_of_leading f a h hdd⟩))
      · exact Or.inr (Or.inr (Or.inr ⟨b, a, hdd, hb, rfl,
          rsplit_of_inner f b a h hb hdd⟩))

theorem stem_of_ext_none (f : FName) (h : extensionOf f = none) :
    file_stem f = some f := by
  rcases rsplit_exhaustive f with ⟨_, hr⟩ | ⟨_, _, hr⟩ | ⟨a, _, _, hr⟩ | ⟨b, a, _, _, _, hr⟩ <;>
    rw [file_stem, hr]
  exact absurd (by rw [extensionOf, hr] : extensionOf f = some a) (by rw [h]; simp)

theorem ext_some_structure (f e : FName) (h : extensionOf f = some e) :
    ∃ b, b ≠ [] ∧ f ≠ toL ".." ∧ splitAtLastDotAux f = some (b, e) ∧
      file_stem f = some b ∧ f = b ++ '.' :: e ∧ '.' ∉ e := by
  rcases rsplit_exhaustive f with ⟨_, hr⟩ | ⟨_, _, hr⟩ | ⟨a, _, _, hr⟩ | ⟨b, a, hne, hb, hs, hr⟩
  · rw [extensionOf, hr] at h; exact absurd h (by simp)
  · rw [extensionOf, hr] at h; exact absurd h (by simp)
  · rw [extensionOf, hr] at h; exact absurd h (by simp)
  · rw [extensionOf, hr] at h
    simp only [Option.some.injEq] at h
    subst e
    obtain ⟨hstruct, hna⟩ := splitAux_structure f b a hs
    exact ⟨b, hb, hne, hs, by rw [file_stem, hr], hstruct, hna⟩

theorem toL_new_length : (toL "_new").length = 4 := by decide

theorem toL_new_no_dot : '.' ∉ toL "_new" := by decide

theorem append_new_ne_dotdot (b : FName) : b ++ toL "_new" ≠ toL ".." := by
  intro h
  have := congrArg List.length h
  rw [List.length_append, toL_new_length] at this
  have h2 : (toL "..").length = 2 := by decide
  omega

theorem alt_of_ext_none (f : FName) (h : extensionOf f = none) :
    alternative_name f = f ++ toL "_new" := by
  rw [alternative_name, stem_of_ext_none f h, h]
  rfl

theorem alt_of_ext_some (f b e : FName) (hstem : file_stem f = some b)
    (hext : extensionOf f = some e) :
    alternative_name f = set_extension_name (b ++ toL "_new") e := by
  rw [alternative_name, hstem, hext]
  rfl

theorem set_extension_name_eq (f e st : FName) (h : file_stem f = some st) :
    set_extension_name f e = if e = [] then st else st ++ '.' :: e := by
  rw [set_extension_name, h]

theorem stem_append_new_of_no_dot (b : FName) (h : '.' ∉ b) :
    file_stem (b ++ toL "_new") = some (b ++ toL "_new") := by
  have hd : '.' ∉ b ++ toL "_new" := by
    intro m
    rcases List.mem_append.mp m with m1 | m2
    · exact h m1
    · exact toL_new_no_dot m2
  rw [file_stem, rsplit_of_no_dot _ hd]

theorem stem_append_new_of_leading (b q : FName)
    (h : splitAtLastDotAux b = some ([], q)) :
    file_stem (b ++ toL "_new") = some (b ++ toL "_new") := by
  have h2 : splitAtLastDotAux (b ++ toL "_new") = some ([], q ++ toL "_new") := by
    rw [splitAux_append_dotless b _ toL_new_no_dot, h]; rfl
  rw [file_stem, rsplit_of_leading _ _ h2 (append_new_ne_dotdot b)]

theorem stem_append_new_of_inner (b x q : FName) (hx : x ≠ [])
    (h : splitAtLastDotAux b = some (x, q)) :
    file_stem (b ++ toL "_new") = some x := by
  have h2 : splitAtLastDotAux (b ++ toL "_new") = some (x, q ++ toL "_new") := by
    rw [splitAux_append_dotless b _ toL_new_no_dot, h]; rfl
  rw [file_stem, rsplit_of_inner _ x (q ++ toL "_new") h2 hx (append_new_ne_dotdot b)]

theorem hasInnerDot_false_cases (b : FName) (h : hasInnerDot b = false) :
    splitAtLastDotAux b = none ∨ ∃ q, splitAtLastDotAux b = some ([], q) := by
  rw [hasInnerDot] at h
  cases h2 : splitAtLastDotAux b with
  | none => exact Or.inl rfl
  | some xq =>
    obtain ⟨x, q⟩ := xq
    rw [h2] at h
    simp only [decide_eq_false_iff_not, Decidable.not_not] at h
    exact Or.inr ⟨q, by rw [h]⟩

theorem hasInnerDot_true_cases (b : FName) (h : hasInnerDot b = true) :
    ∃ x q, x ≠ [] ∧ splitAtLastDotAux b = some (x, q) := by
  rw [hasInnerDot] at h
  cases h2 : splitAtLastDotAux b with
  | none => rw [h2] at h; exact absurd h (by simp)
  | some xq =>
    obtain ⟨x, q⟩ := xq
    rw [h2] at h
    simp only [decide_eq_true_eq] at h
    exact ⟨x, q, h, rfl⟩

/-- Fact about `alternative_name` applied to a name without inner-dotted stem:
the stem of the `_new`-suffixed name is the whole of it. -/
theorem stem_append_new_whole (b : FName) (h : hasInnerDot b = false) :
    file_stem (b ++ toL "_new") = some (b ++ toL "_new") := by
  rcases hasInnerDot_false_cases b h with h2 | ⟨q, h2⟩
  · exact stem_append_new_of_no_dot b (not_mem_of_splitAux_none b h2)
  · exact stem_append_new_of_leading b q h2

theorem hasInnerDot_append_new (b : FName) (h : hasInnerDot b = false) :
    hasInnerDot (b ++ toL "_new") = false := by
  rw [hasInnerDot]
  rcases hasInnerDot_false_cases b h with h2 | ⟨q, h2⟩
  · rw [splitAux_of_not_mem _ (fun m => by
      rcases List.mem_append.mp m with m1 | m2
      · exact not_mem_of_splitAux_none b h2 m1
      · exact toL_new_no_dot m2)]
  · rw [splitAux_append_dotless b _ toL_new_no_dot, h2]
    simp

/-- Growth of `alternative_name` on grow-class names, and preservation of
the grow class. -/
theorem growName_spec_true (f : FName) (h : growName f = true) :
    f.length < (alternative_name f).length ∧ growName (alternative_name f) = true := by
  rcases rsplit_exhaustive f with ⟨hdd, hr⟩ | ⟨hne, hnm, hr⟩ | ⟨a, hne, hs, hr⟩ |
    ⟨b, a, hne, hb, hs, hr⟩
  · subst hdd
    exact ⟨by decide, by decide⟩
  · have hext : extensionOf f = none := by rw [extensionOf, hr]
    rw [alt_of_ext_none f hext]
    constructor
    · rw [List.length_append, toL_new_length]; omega
    · rw [growName, rsplit_of_no_dot _ (fun m => by
        rcases List.mem_append.mp m with m1 | m2
        · exact hnm m1
        · exact toL_new_no_dot m2)]
  · have hext : extensionOf f = none := by rw [extensionOf, hr]
    rw [alt_of_ext_none f hext]
    constructor
    · rw [List.length_append, toL_new_length]; omega
    · have h2 : splitAtLastDotAux (f ++ toL "_new") = some ([], a ++ toL "_new") := by
        rw [splitAux_append_dotless f _ toL_new_no_dot, hs]; rfl
      rw [growName, rsplit_of_leading _ _ h2 (append_new_ne_dotdot f)]
  · -- extension `a`, stem `b`; the grow hypothesis means `b` has no inner dot
    have hstem : file_stem f = some b := by rw [file_stem, hr]
    have hext : extensionOf f = some a := by rw [extensionOf, hr]
    have hid : hasInnerDot b = false := by
      rw [growName, hr] at h
      simpa using h
    obtain ⟨hfeq, hna⟩ := splitAux_structure f b a hs
    rw [alt_of_ext_some f b a hstem hext,
      set_extension_name_eq _ _ _ (stem_append_new_whole b hid)]
    by_cases hae : a = []
    · subst hae
      rw [if_pos rfl]
      constructor
      · rw [hfeq]
        simp only [List.length_append, List.length_cons, List.length_nil,
          toL_new_length]
        omega
      · rw [growName]
        rcases hasInnerDot_false_cases b hid with h2 | ⟨q, h2⟩
        · rw [rsplit_of_no_dot _ (fun m => by
            rcases List.mem_append.mp m with m1 | m2
            · exact not_mem_of_splitAux_none b h2 m1
            · exact toL_new_no_dot m2)]
        · have h3 : splitAtLastDotAux (b ++ toL "_new") = some ([], q ++ toL "_new") := by
            rw [splitAux_append_dotless b _ toL_new_no_dot, h2]; rfl
          rw [rsplit_of_leading _ _ h3 (append_new_ne_dotdot b)]
    · rw [if_neg hae]
      constructor
      · rw [hfeq]
        simp only [List.length_append, List.length_cons, toL_new_length]
        omega
      · have h3 : splitAtLastDotAux ((b ++ toL "_new") ++ '.' :: a) =
            some (b ++ toL "_new", a) := splitAux_append_left _ a hna
        have h4 : (b ++ toL "_new") ++ '.' :: a ≠ toL ".." := by
          intro hcontra
          have := congrArg List.length hcontra
          rw [List.length_append, List.length_append, toL_new_length,
            List.length_cons] at this
          have h5 : (toL "..").length = 2 := by decide
          omega
        rw [growName, rsplit_of_inner _ _ _ h3 (by
          intro hcontra
          have := congrArg List.length hcontra
          rw [List.length_append, toL_new_length] at this
          simp at this) h4]
        show (!hasInnerDot (b ++ toL "_new")) = true
        rw [hasInnerDot_append_new b hid]
        rfl

/-- Shrinking of `alternative_name` on inner-dotted stems. -/
theorem growName_spec_false (f : FName) (h : growName f = false) :
    (alternative_name f).length < f.length := by
  rcases rsplit_exhaustive f with ⟨hdd, hr⟩ | ⟨hne, hnm, hr⟩ | ⟨a, hne, hs, hr⟩ |
    ⟨b, a, hne, hb, hs, hr⟩
  · rw [growName, hr] at h; exact absurd h (by simp)
  · rw [growName, hr] at h; exact absurd h (by simp)
  · rw [growName, hr] at h; exact absurd h (by simp)
  · have hstem : file_stem f = some b := by rw [file_stem, hr]
    have hext : extensionOf f = some a := by rw [extensionOf, hr]
    have hid : hasInnerDot b = true := by
      rw [growName, hr] at h
      simpa using h
    obtain ⟨x, q, hx, h2⟩ := hasInnerDot_true_cases b hid
    obtain ⟨hfeq, hna⟩ := splitAux_structure f b a hs
    obtain ⟨hbeq, hnq⟩ := splitAux_structure b x q h2
    rw [alt_of_ext_some f b a hstem hext,
      set_extension_name_eq _ _ _ (stem_append_new_of_inner b x q hx h2)]
    by_cases hae : a = []
    · subst hae
      rw [if_pos rfl, hfeq, hbeq]
      simp only [List.length_append, List.length_cons, List.length_nil]
      omega
    · rw [if_neg hae, hfeq, hbeq]
      simp only [List.length_append, List.length_cons]
      omega

/-! ## Path-level facts about the renaming -/

theorem lastComponent_concat (l : List FName) (a : FName) :
    lastComponent (l ++ [a]) = a := by
  rw [lastComponent, List.getLastD_concat]

theorem create_alternative_path_eq (p : PathBuf) :
    create_alternative_path p = p.dropLast ++ [alternative_name (lastComponent p)] := by
  rw [create_alternative_path, change_file_name, alternative_name]
  cases h : extensionOf (lastComponent p) with
  | none => rfl
  | some ext =>
    show set_file_name (set_file_name p _) _ = _
    simp only [set_file_name, List.dropLast_concat]

theorem lastComponent_alt (p : PathBuf) :
    lastComponent (create_alternative_path p) = alternative_name (lastComponent p) := by
  rw [create_alternative_path_eq, lastComponent_concat]

/-! ## Counting lemmas for the termination argument -/

theorem lookupP_mem : ∀ (l : List (PathBuf × Nat)) (p : PathBuf) (v : Nat),
    lookupP l p = some v → (p, v) ∈ l
  | [], p, v, h => by simp [lookupP] at h
  | (k, u) :: t, p, v, h => by
    rw [lookupP] at h
    by_cases hk : k = p
    · rw [if_pos hk] at h
      subst hk
      obtain rfl : u = v := Option.some.inj h
      exact List.mem_cons_self _ _
    · rw [if_neg hk] at h
      exact List.mem_cons_of_mem _ (lookupP_mem t p v h)

theorem length_filter_mono {α : Type} (p q : α → Bool) :
    ∀ (l : List α), (∀ x ∈ l, p x = true → q x = true) →
      (l.filter p).length ≤ (l.filter q).length
  | [], _ => le_refl _
  | b :: t, h => by
    have ht := length_filter_mono p q t (fun x hx => h x (List.mem_cons_of_mem _ hx))
    by_cases hpb : p b = true
    · have hqb := h b (List.mem_cons_self b t) hpb
      rw [List.filter_cons_of_pos hpb, List.filter_cons_of_pos hqb]
      simpa using ht
    · rw [List.filter_cons_of_neg hpb]
      by_cases hqb : q b = true
      · rw [List.filter_cons_of_pos hqb]
        exact le_trans ht (by simp)
      · rw [List.filter_cons_of_neg hqb]
        exact ht

theorem length_filter_lt {α : Type} (p q : α → Bool) :
    ∀ (l : List α) (a : α), (∀ x ∈ l, p x = true → q x = true) → a ∈ l →
      q a = true → p a = false → (l.filter p).length < (l.filter q).length
  | [], a, _, ha, _, _ => absurd ha (List.not_mem_nil a)
  | b :: t, a, h, ha, hqa, hpa => by
    have hmono := length_filter_mono p q t (fun x hx => h x (List.mem_cons_of_mem _ hx))
    rcases List.mem_cons.mp ha with rfl | hat
    · rw [List.filter_cons_of_neg (by rw [hpa]; simp), List.filter_cons_of_pos hqa]
      simp only [List.length_cons]
      omega
    · have hlt := length_filter_lt p q t a
        (fun x hx => h x (List.mem_cons_of_mem _ hx)) hat hqa hpa
      by_cases hpb : p b = true
      · have hqb := h b (List.mem_cons_self b t) hpb
        rw [List.filter_cons_of_pos hpb, List.filter_cons_of_pos hqb]
        simpa using hlt
      · rw [List.filter_cons_of_neg hpb]
        by_cases hqb : q b = true
        · rw [List.filter_cons_of_pos hqb]
          exact lt_of_lt_of_le hlt (by simp)
        · rw [List.filter_cons_of_neg hqb]
          exact hlt

theorem exists_size_of_pathExists (w : World) (p : PathBuf)
    (h : pathExists w p = true) : ∃ sz, (p, sz) ∈ w.files := by
  rw [pathExists] at h
  by_cases hm : p ∈ w.statErr
  · rw [if_pos hm] at h; exact absurd h (by simp)
  · rw [if_neg hm] at h
    cases hl : lookupP w.files p with
    | none => rw [hl] at h; exact absurd h (by simp)
    | some sz => exact ⟨sz, lookupP_mem _ _ _ hl⟩

/-! ## Termination of the KeepBoth placement recursion -/

theorem handle_exists_KB (w : World) (src tgt : PathBuf)
    (cm : FileConflictResolutionMode) (ans : ChooseAnswer)
    (hkb : cm = .KeepBoth ∨ (cm = .Choose ∧ ans = .keepBothFiles)) :
    handle_file_exists_at_target w src tgt cm ans = .panicked ∨
    handle_file_exists_at_target w src tgt cm ans = .ok none ∨
    handle_file_exists_at_target w src tgt cm ans =
      .ok (some (create_alternative_path tgt)) := by
  rw [handle_file_exists_at_target]
  cases h1 : metadataLen w src with
  | none => exact Or.inl rfl
  | some s =>
    cases h2 : metadataLen w tgt with
    | none => exact Or.inl rfl
    | some t =>
      by_cases hst : s = t
      · subst hst; simp
      · rcases hkb with hkb | ⟨hcm, hans⟩
        · subst hkb; simp [hst]
        · subst hcm; subst hans; simp [hst]

theorem validate_grow (opts : Options) (answer : ChooseAnswer)
    (hkb : KBcond opts answer) (w : World) (src : PathBuf) :
    ∀ (fuel : Nat) (cand : PathBuf), growName (lastComponent cand) = true →
      (w.files.filter (lenGE (lastComponent cand).length)).length < fuel →
      validate_and_resolve_path_problems opts answer fuel w cand src ≠ .fuelOut := by
  intro fuel
  induction fuel with
  | zero => intro cand _ hf; exact absurd hf (Nat.not_lt_zero _)
  | succ n ih =>
    intro cand hg hf
    rw [validate_and_resolve_path_problems]
    by_cases hex : pathExists w cand = true
    · rw [if_pos hex]
      rcases handle_exists_KB w src cand opts.file_conflict_resolution_mode answer hkb
        with hh | hh | hh
      · rw [hh]; simp
      · rw [hh]
        by_cases hd : opts.delete_skipped_source_duplicates = true
        · cases hmode : opts.mode with
          | DryRun => simp [hd]
          | Copy => simp [hd]
          | Move =>
            cases hrm : fsRemoveFile w src with
            | some w2 => simp [hd, hrm]
            | none => simp [hd, hrm]
        · simp [hd]
      · rw [hh]
        show validate_and_resolve_path_problems opts answer n w
          (create_alternative_path cand) src ≠ .fuelOut
        have hgrow := growName_spec_true (lastComponent cand) hg
        apply ih (create_alternative_path cand)
        · rw [lastComponent_alt]; exact hgrow.2
        · obtain ⟨sz, hmem⟩ := exists_size_of_pathExists w cand hex
          have hlt := length_filter_lt
            (lenGE (lastComponent (create_alternative_path cand)).length)
            (lenGE (lastComponent cand).length) w.files (cand, sz)
            (fun x _ hx => by
              rw [lenGE, decide_eq_true_eq] at hx ⊢
              rw [lastComponent_alt] at hx
              exact le_trans (le_of_lt hgrow.1) hx)
            hmem
            (by rw [lenGE, decide_eq_true_eq])
            (by
              rw [lenGE, decide_eq_false_iff_not, not_le, lastComponent_alt]
              exact hgrow.1)
          omega
    · rw [if_neg hex]; simp

theorem validate_total (opts : Options) (answer : ChooseAnswer)
    (hkb : KBcond opts answer) (w : World) (src : PathBuf) :
    ∀ (L : Nat) (cand : PathBuf) (fuel : Nat), (lastComponent cand).length ≤ L →
      L + w.files.length + 1 ≤ fuel →
      validate_and_resolve_path_problems opts answer fuel w cand src ≠ .fuelOut := by
  intro L
  induction L using Nat.strong_induction_on with
  | _ L ihL =>
    intro cand fuel hlen hfuel
    obtain ⟨n, rfl⟩ : ∃ n, fuel = n + 1 := ⟨fuel - 1, by omega⟩
    rw [validate_and_resolve_path_problems]
    by_cases hex : pathExists w cand = true
    · rw [if_pos hex]
      rcases handle_exists_KB w src cand opts.file_conflict_resolution_mode answer hkb
        with hh | hh | hh
      · rw [hh]; simp
      · rw [hh]
        by_cases hd : opts.delete_skipped_source_duplicates = true
        · cases hmode : opts.mode with
          | DryRun => simp [hd]
          | Copy => simp [hd]
          | Move =>
            cases hrm : fsRemoveFile w src with
            | some w2 => simp [hd, hrm]
            | none => simp [hd, hrm]
        · simp [hd]
      · rw [hh]
        show validate_and_resolve_path_problems opts answer n w
          (create_alternative_path cand) src ≠ .fuelOut
        obtain ⟨sz, hmem⟩ := exists_size_of_pathExists w cand hex
        by_cases hg : growName (lastComponent cand) = true
        · -- grow class: switch to the filter measure
          have hgrow := growName_spec_true (lastComponent cand) hg
          apply validate_grow opts answer hkb w src n (create_alternative_path cand)
          · rw [lastComponent_alt]; exact hgrow.2
          · have hle : (w.files.filter
                (lenGE (lastComponent (create_alternative_path cand)).length)).length <
                w.files.length := by
              have := length_filter_lt
                (lenGE (lastComponent (create_alternative_path cand)).length)
                (fun _ => true) w.files (cand, sz)
                (fun x _ _ => rfl) hmem rfl
                (by
                  rw [lenGE, decide_eq_false_iff_not, not_le, lastComponent_alt]
                  exact hgrow.1)
              rw [List.filter_true] at this
              exact this
            omega
        · -- shrink class: the candidate name got strictly shorter
          have hgf : growName (lastComponent cand) = false := by
            simpa using hg
          have hsh := growName_spec_false (lastComponent cand) hgf
          have hlen2 : (lastComponent (create_alternative_path cand)).length ≤ L - 1 := by
            rw [lastComponent_alt]; omega
          have hL1 : 1 ≤ L := by
            rw [lastComponent_alt] at hlen2
            omega
          exact ihL (L - 1) (by omega) (create_alternative_path cand) n hlen2 (by omega)
    · rw [if_neg hex]; simp

/-! ## Directory-set invariants of the driver -/

theorem fsRemoveFile_some_eq (w : World) (p : PathBuf) (w2 : World)
    (h : fsRemoveFile w p = some w2) :
    w2 = { w with files := removeP w.files p } := by
  rw [fsRemoveFile] at h
  by_cases hm : p ∈ w.opErr
  · rw [if_pos hm] at h; exact absurd h (by simp)
  · rw [if_neg hm] at h
    cases hl : lookupP w.files p with
    | none => rw [hl] at h; exact absurd h (by simp)
    | some sz => rw [hl] at h; exact (Option.some.inj h).symm

theorem fsRemoveFile_dirs (w : World) (p : PathBuf) (w2 : World)
    (h : fsRemoveFile w p = some w2) : w2.dirs = w.dirs := by
  rw [fsRemoveFile] at h
  by_cases hm : p ∈ w.opErr
  · rw [if_pos hm] at h; exact absurd h (by simp)
  · rw [if_neg hm] at h
    cases hl : lookupP w.files p with
    | none => rw [hl] at h; exact absurd h (by simp)
    | some sz =>
      rw [hl] at h
      obtain rfl := Option.some.inj h
      rfl

theorem fsRename_dirs (w : World) (src dst : PathBuf) (w2 : World)
    (h : fsRename w src dst = some w2) : w2.dirs = w.dirs := by
  rw [fsRename] at h
  by_cases hm : src ∈ w.opErr ∨ dst ∈ w.opErr
  · rw [if_pos hm] at h; exact absurd h (by simp)
  · rw [if_neg hm] at h
    cases hl : lookupP w.files src with
    | none => rw [hl] at h; exact absurd h (by simp)
    | some sz =>
      rw [hl] at h
      obtain rfl := Option.some.inj h
      rfl

theorem fsCopy_dirs (w : World) (src dst : PathBuf) (w2 : World)
    (h : fsCopy w src dst = some w2) : w2.dirs = w.dirs := by
  rw [fsCopy] at h
  by_cases hm : src ∈ w.opErr ∨ dst ∈ w.opErr
  · rw [if_pos hm] at h; exact absurd h (by simp)
  · rw [if_neg hm] at h
    cases hl : lookupP w.files src with
    | none => rw [hl] at h; exact absurd h (by simp)
    | some sz =>
      rw [hl] at h
      obtain rfl := Option.some.inj h
      rfl

theorem fsCreateDirAll_spec (w : World) (d : PathBuf) (w2 : World)
    (h : fsCreateDirAll w d = some w2) : w.dirs ⊆ w2.dirs ∧ d ∈ w2.dirs := by
  rw [fsCreateDirAll] at h
  by_cases hm : d ∈ w.opErr
  · rw [if_pos hm] at h; exact absurd h (by simp)
  · rw [if_neg hm] at h
    obtain rfl := Option.some.inj h
    by_cases hd : d ∈ w.dirs
    · constructor
      · intro x hx; simpa [hd] using hx
      · simp only [if_pos hd]; exact hd
    · constructor
      · intro x hx; simp only [hd]; simp [hx]
      · simp [hd]

theorem validate_preservesDirs (opts : Options) (answer : ChooseAnswer) :
    ∀ (fuel : Nat) (w : World) (cand src : PathBuf),
      preservesDirs w (validate_and_resolve_path_problems opts answer fuel w cand src) := by
  intro fuel
  induction fuel with
  | zero => intro w cand src; trivial
  | succ n ih =>
    intro w cand src
    rw [validate_and_resolve_path_problems]
    by_cases hex : pathExists w cand = true
    · rw [if_pos hex]
      cases hh : handle_file_exists_at_target w src cand
          opts.file_conflict_resolution_mode answer with
      | panicked => trivial
      | ok o =>
        cases o with
        | some path => exact ih w path src
        | none =>
          by_cases hd : opts.delete_skipped_source_duplicates = true
          · cases hmode : opts.mode with
            | DryRun => simp only [if_pos hd, hmode]; exact fun _ hx => hx
            | Copy => simp only [if_pos hd, hmode]; exact fun _ hx => hx
            | Move =>
              simp only [if_pos hd, hmode]
              cases hrm : fsRemoveFile w src with
              | some w2 =>
                show w.dirs ⊆ w2.dirs
                rw [fsRemoveFile_dirs w src w2 hrm]
                exact fun _ hx => hx
              | none => exact fun _ hx => hx
          · simp only [if_neg hd]; exact fun _ hx => hx
    · rw [if_neg hex]; exact fun _ hx => hx

theorem hmp_ok_spec (tp : PathBuf) (ps : List PathBuf) (w w2 : World)
    (h : handle_missing_parents tp ps w = .ok () w2) :
    w.dirs ⊆ w2.dirs ∧ (parentOf tp ∈ ps ∨ parentOf tp ∈ w2.dirs) := by
  rw [handle_missing_parents] at h
  by_cases hp : parentOf tp ∈ ps
  · rw [if_pos hp] at h
    obtain ⟨-, rfl⟩ : True ∧ w = w2 := by
      cases h; exact ⟨trivial, rfl⟩
    exact ⟨fun _ hx => hx, Or.inl hp⟩
  · rw [if_neg hp] at h
    cases hc : fsCreateDirAll w (parentOf tp) with
    | none => rw [hc] at h; exact absurd h (by simp)
    | some w3 =>
      rw [hc] at h
      obtain ⟨-, rfl⟩ : True ∧ w3 = w2 := by
        cases h; exact ⟨trivial, rfl⟩
      obtain ⟨hsub, hmem⟩ := fsCreateDirAll_spec w (parentOf tp) w3 hc
      exact ⟨hsub, Or.inr hmem⟩

theorem hmp_error_world (tp : PathBuf) (ps : List PathBuf) (w w2 : World) (m : String)
    (h : handle_missing_parents tp ps w = .error m w2) : w2 = w := by
  rw [handle_missing_parents] at h
  by_cases hp : parentOf tp ∈ ps
  · rw [if_pos hp] at h; exact absurd h (by simp)
  · rw [if_neg hp] at h
    cases hc : fsCreateDirAll w (parentOf tp) with
    | none => rw [hc] at h; cases h; rfl
    | some w3 => rw [hc] at h; exact absurd h (by simp)

theorem sort_preservesDirs (opts : Options) (answer : ChooseAnswer) (fuel : Nat)
    (src : PathBuf) (ps : List PathBuf) (dt : NaiveDateTime) (w : World) :
    preservesDirs w (sort_file opts answer fuel src ps dt w) := by
  rw [sort_file]
  have hv := validate_preservesDirs opts answer fuel w
    (target_path_unverified opts src dt) src
  split
  · trivial
  · trivial
  · next m w2 heq => rw [heq] at hv; exact hv
  · next w2 heq => rw [heq] at hv; exact hv
  · next valid w2 heq =>
    rw [heq] at hv
    have hv2 : w.dirs ⊆ w2.dirs := hv
    split
    · exact hv2
    · -- Move
      split
      · trivial
      · trivial
      · next m w3 hmp =>
        show w.dirs ⊆ w3.dirs
        rw [hmp_error_world valid ps w2 w3 m hmp]
        exact hv2
      · next w3 hmp =>
        obtain ⟨hsub, -⟩ := hmp_ok_spec valid ps w2 w3 hmp
        split
        · next w4 hrn =>
          show w.dirs ⊆ w4.dirs
          rw [fsRename_dirs w3 src valid w4 hrn]
          exact fun x hx => hsub (hv2 hx)
        · show w.dirs ⊆ w3.dirs
          exact fun x hx => hsub (hv2 hx)
    · -- Copy
      split
      · trivial
      · trivial
      · next m w3 hmp =>
        show w.dirs ⊆ w3.dirs
        rw [hmp_error_world valid ps w2 w3 m hmp]
        exact hv2
      · next w3 hmp =>
        obtain ⟨hsub, -⟩ := hmp_ok_spec valid ps w2 w3 hmp
        split
        · next w4 hrn =>
          show w.dirs ⊆ w4.dirs
          rw [fsCopy_dirs w3 src valid w4 hrn]
          exact fun x hx => hsub (hv2 hx)
        · show w.dirs ⊆ w3.dirs
          exact fun x hx => hsub (hv2 hx)

theorem sort_place_parent (opts : Options) (answer : ChooseAnswer) (fuel : Nat)
    (src : PathBuf) (ps : List PathBuf) (dt : NaiveDateTime) (w : World)
    (t : PathBuf) (w2 : World)
    (h : sort_file opts answer fuel src ps dt w = .ok (some t) w2)
    (hmode : opts.mode ≠ .DryRun)
    (hinv : ∀ p ∈ ps, p ∈ w.dirs) : parentOf t ∈ w2.dirs := by
  rw [sort_file] at h
  have hv := validate_preservesDirs opts answer fuel w
    (target_path_unverified opts src dt) src
  split at h
  · simp at h
  · simp at h
  · simp at h
  · simp at h
  · next valid w3 heq =>
    rw [heq] at hv
    have hv2 : w.dirs ⊆ w3.dirs := hv
    split at h
    · next hdr => exact absurd hdr hmode
    · -- Move
      split at h
      · simp at h
      · simp at h
      · simp at h
      · next w4 hmp =>
        obtain ⟨hsub, hpar⟩ := hmp_ok_spec valid ps w3 w4 hmp
        split at h
        · next w5 hrn =>
          simp only [Res.ok.injEq, Option.some.injEq] at h
          obtain ⟨rfl, rfl⟩ := h
          rw [fsRename_dirs w4 src _ _ hrn]
          rcases hpar with hp | hp
          · exact hsub (hv2 (hinv _ hp))
          · exact hp
        · simp at h
    · -- Copy
      split at h
      · simp at h
      · simp at h
      · simp at h
      · next w4 hmp =>
        obtain ⟨hsub, hpar⟩ := hmp_ok_spec valid ps w3 w4 hmp
        split at h
        · next w5 hrn =>
          simp only [Res.ok.injEq, Option.some.injEq] at h
          obtain ⟨rfl, rfl⟩ := h
          rw [fsCopy_dirs w4 src _ _ hrn]
          rcases hpar with hp | hp
          · exact hsub (hv2 (hinv _ hp))
          · exact hp
        · simp at h

theorem handle_one_step (opts : Options) (answer : ChooseAnswer) (fuel : Nat)
    (ps : List PathBuf) (w : World) (e : Entry) (ps2 : List PathBuf)
    (r : Report) (w2 : World)
    (h : handle_file_one opts answer fuel ps w e = .ok (ps2, r) w2) :
    (∀ p ∈ ps, p ∈ ps2) ∧ w.dirs ⊆ w2.dirs ∧
      (opts.mode ≠ .DryRun → (∀ p ∈ ps, p ∈ w.dirs) → ∀ p ∈ ps2, p ∈ w2.dirs) := by
  rw [handle_file_one] at h
  split at h
  · -- supported (or included) file
    split at h
    · simp at h
    · -- extract returned a recoverable error
      simp only [Res.ok.injEq, Prod.mk.injEq] at h
      obtain ⟨⟨rfl, rfl⟩, rfl⟩ := h
      exact ⟨fun p hp => hp, fun _ hx => hx, fun _ hi p hp => hi p hp⟩
    · -- extract succeeded; case on sort_file
      next dt hex =>
      have hpres := sort_preservesDirs opts answer fuel e.source_path ps dt w
      split at h
      · simp at h
      · simp at h
      · -- sort_file error
        next m w3 hs =>
        rw [hs] at hpres
        simp only [Res.ok.injEq, Prod.mk.injEq] at h
        obtain ⟨⟨rfl, rfl⟩, rfl⟩ := h
        exact ⟨fun p hp => hp, hpres, fun _ hi p hp => hpres (hi p hp)⟩
      · -- sort_file skipped
        next w3 hs =>
        rw [hs] at hpres
        simp only [Res.ok.injEq, Prod.mk.injEq] at h
        obtain ⟨⟨rfl, rfl⟩, rfl⟩ := h
        exact ⟨fun p hp => hp, hpres, fun _ hi p hp => hpres (hi p hp)⟩
      · -- sort_file placed the file
        next t w3 hs =>
        rw [hs] at hpres
        simp only [Res.ok.injEq, Prod.mk.injEq] at h
        obtain ⟨⟨rfl, rfl⟩, rfl⟩ := h
        refine ⟨?_, hpres, ?_⟩
        · intro p hp
          by_cases hin : parentOf t ∈ ps
          · rw [if_pos hin]; exact hp
          · rw [if_neg hin]; exact List.mem_cons_of_mem _ hp
        · intro hm hi p hp
          have hplaced := sort_place_parent opts answer fuel e.source_path ps dt w
            t _ hs hm hi
          by_cases hin : parentOf t ∈ ps
          · rw [if_pos hin] at hp
            exact hpres (hi p hp)
          · rw [if_neg hin] at hp
            rcases List.mem_cons.mp hp with rfl | hp2
            · exact hplaced
            · exact hpres (hi p hp2)
  · -- unsupported file type
    simp only [Res.ok.injEq, Prod.mk.injEq] at h
    obtain ⟨⟨rfl, rfl⟩, rfl⟩ := h
    exact ⟨fun p hp => hp, fun _ hx => hx, fun _ hi p hp => hi p hp⟩

theorem run_loop_invariant (opts : Options) (answer : ChooseAnswer) (fuel : Nat)
    (es : List Entry) (ps : List PathBuf) (w : World) (pf : List PathBuf)
    (rs : List Report) (wf : World)
    (h : run_loop opts answer fuel es ps w = .ok (pf, rs) wf) :
    (∀ p ∈ ps, p ∈ pf) ∧
      (opts.mode ≠ .DryRun → (∀ p ∈ ps, p ∈ w.dirs) → ∀ p ∈ pf, p ∈ wf.dirs) := by
  induction es generalizing ps w rs with
  | nil =>
    rw [run_loop] at h
    simp only [Res.ok.injEq, Prod.mk.injEq] at h
    obtain ⟨⟨rfl, rfl⟩, rfl⟩ := h
    exact ⟨fun p hp => hp, fun _ hi p hp => hi p hp⟩
  | cons e es ih =>
    rw [run_loop] at h
    split at h
    · simp at h
    · simp at h
    · simp at h
    · next ps3 r w3 hone =>
      split at h
      · simp at h
      · simp at h
      · simp at h
      · next psf rs2 w4 hrest =>
        simp only [Res.ok.injEq, Prod.mk.injEq] at h
        obtain ⟨⟨rfl, rfl⟩, rfl⟩ := h
        obtain ⟨hsub1, hdir1, hinv1⟩ := handle_one_step opts answer fuel ps w e
          ps3 r w3 hone
        obtain ⟨hsub2, hinv2⟩ := ih ps3 w3 rs2 hrest
        refine ⟨fun p hp => hsub2 p (hsub1 p hp), ?_⟩
        intro hm hi
        exact hinv2 hm (hinv1 hm hi)

/-! ## Default run mode -/

theorem parse_loop_mode : ∀ (args : List String) (st : PState),
    (∀ a ∈ args, a ∉ modeFlags) → ∀ st2, parse_loop args st = .ok st2 →
      st2.mode = st.mode
  | [], st, _, st2, h => by
    rw [parse_loop] at h
    obtain rfl := Except.ok.inj h
    rfl
  | a :: rest, st, hargs, st2, h => by
    have hrest : ∀ x ∈ rest, x ∉ modeFlags :=
      fun x hx => hargs x (List.mem_cons_of_mem _ hx)
    have ha := hargs a (List.mem_cons_self a rest)
    rw [parse_loop] at h
    by_cases h1 : st.skip_read_next_value = true
    · rw [if_pos h1] at h
      have hm2 := parse_loop_mode rest _ hrest st2 h
      exact hm2
    · rw [if_neg h1] at h
      by_cases h2 : a = "--verbose" ∨ a = "-v"
      · rw [if_pos h2] at h
        have hm2 := parse_loop_mode rest _ hrest st2 h
        exact hm2
      · rw [if_neg h2] at h
        by_cases h3 : a = "--dry-run" ∨ a = "-d"
        · exact absurd (by rcases h3 with rfl | rfl <;> decide) ha
        · rw [if_neg h3] at h
          by_cases h4 : a = "--copy" ∨ a = "-c"
          · exact absurd (by rcases h4 with rfl | rfl <;> decide) ha
          · rw [if_neg h4] at h
            by_cases h5 : a = "--move" ∨ a = "-m"
            · exact absurd (by rcases h5 with rfl | rfl <;> decide) ha
            · rw [if_neg h5] at h
              by_cases h6 : a = "--target" ∨ a = "-t"
              · rw [if_pos h6] at h
                have hm2 := parse_loop_mode rest _ hrest st2 h
                exact hm2
              · rw [if_neg h6] at h
                by_cases h7 : a = "--conflict-mode" ∨ a = "-k"
                · rw [if_pos h7] at h
                  have hm2 := parse_loop_mode rest _ hrest st2 h
                  exact hm2
                · rw [if_neg h7] at h
                  by_cases h8 : a = "--file-creation-fallback" ∨ a = "-s"
                  · rw [if_pos h8] at h
                    have hm2 := parse_loop_mode rest _ hrest st2 h
                    exact hm2
                  · rw [if_neg h8] at h
                    by_cases h9 : a = "--delete-skipped-source-duplicates" ∨ a = "-q"
                    · rw [if_pos h9] at h
                      have hm2 := parse_loop_mode rest _ hrest st2 h
                      exact hm2
                    · rw [if_neg h9] at h
                      by_cases h10 : a = "--include-unsupported-file-types" ∨ a = "-u"
                      · rw [if_pos h10] at h
                        have hm2 := parse_loop_mode rest _ hrest st2 h
                        exact hm2
                      · rw [if_neg h10] at h
                        by_cases h11 : st.source_folder_str = none
                        · rw [if_pos h11] at h
                          have hm2 := parse_loop_mode rest _ hrest st2 h
                          exact hm2
                        · rw [if_neg h11] at h
                          exact Except.noConfusion h

/-! ## Shared helper facts -/

/-- Equal byte sizes short-circuit `handle_file_exists_at_target` to a
skip before any conflict-mode logic runs. -/
theorem handle_equal_size (w : World) (source_path target_path : PathBuf)
    (cm : FileConflictResolutionMode) (answer : ChooseAnswer) (n : Nat)
    (hs : metadataLen w source_path = some n)
    (ht : metadataLen w target_path = some n) :
    handle_file_exists_at_target w source_path target_path cm answer = .ok none := by
  rw [handle_file_exists_at_target, hs, ht]
  simp

theorem one_le_daysInMonth (y : Int) (m : Nat) : 1 ≤ daysInMonth y m := by
  rw [daysInMonth]
  split_ifs <;> omega

theorem grow_iter_length : ∀ (k : Nat) (f : FName), growName f = true →
    f.length < (alternative_name^[k + 1] f).length := by
  intro k
  induction k with
  | zero =>
    intro f hg
    simpa using (growName_spec_true f hg).1
  | succ n ih =>
    intro f hg
    have h1 := growName_spec_true f hg
    have h2 := ih (alternative_name f) h1.2
    rw [Function.iterate_succ_apply]
    rw [Function.iterate_succ_apply] at h2
    exact lt_trans h1.1 h2

theorem alt_no_cycle : ∀ (L : Nat) (f : FName), f.length ≤ L → ∀ d : Nat,
    alternative_name^[d + 1] f ≠ f := by
  intro L
  induction L with
  | zero =>
    intro f hL d hcontra
    by_cases hg : growName f = true
    · have hlen := grow_iter_length d f hg
      rw [hcontra] at hlen
      omega
    · have hsh := growName_spec_false f (by simpa using hg)
      omega
  | succ n ih =>
    intro f hL d hcontra
    by_cases hg : growName f = true
    · have hlen := grow_iter_length d f hg
      rw [hcontra] at hlen
      omega
    · have hsh := growName_spec_false f (by simpa using hg)
      have hper : alternative_name^[d + 1] (alternative_name f) = alternative_name f := by
        rw [← Function.iterate_succ_apply, Function.iterate_succ_apply', hcontra]
      exact ih (alternative_name f) (by omega) d hper

theorem lastComponent_alt_iter : ∀ (k : Nat) (p : PathBuf),
    lastComponent (create_alternative_path^[k] p) =
      alternative_name^[k] (lastComponent p) := by
  intro k
  induction k with
  | zero => intro p; rfl
  | succ n ih =>
    intro p
    rw [Function.iterate_succ_apply, Function.iterate_succ_apply, ih,
      lastComponent_alt]

/-- Successive `_new`-renaming never revisits a candidate: all iterates of
`create_alternative_path` from any starting path are pairwise distinct. -/
theorem alt_orbit_distinct (p : PathBuf) (i j : Nat) (hij : i < j) :
    create_alternative_path^[i] p ≠ create_alternative_path^[j] p := by
  intro hcontra
  obtain ⟨d, rfl⟩ : ∃ d, j = (d + 1) + i := ⟨j - i - 1, by omega⟩
  have hper : alternative_name^[d + 1] (alternative_name^[i] (lastComponent p)) =
      alternative_name^[i] (lastComponent p) := by
    rw [← Function.iterate_add_apply, ← lastComponent_alt_iter,
      ← lastComponent_alt_iter, ← hcontra]
  exact alt_no_cycle (alternative_name^[i] (lastComponent p)).length
    (alternative_name^[i] (lastComponent p)) (le_refl _) d hper

/-! ## The claims -/

/-- Claim C1: the candidate destination computed by the placement step is
exactly `targetRoot/Y/M/N` for the resolved year `Y`, month `M` and source
file name `N`, with `Y` and `M` rendered in decimal without zero padding
(a month below 10 renders as a single digit), as in the scenario
`target/2023/7/IMG_20230715_120000.jpg`. -/
theorem claim_C1_destination_path :
    (∀ (opts : Options) (src : PathBuf) (dt : NaiveDateTime),
      target_path_unverified opts src dt =
        opts.target_folder ++
          [toL (toString dt.year), toL (toString dt.month), lastComponent src])
    ∧ (∀ m : Nat, m < 10 → (toL (toString m)).length = 1)
    ∧ target_path_unverified c1Opts [toL "source", toL "IMG_20230715_120000.jpg"]
        ⟨2023, 7, 15, 12, 0, 0⟩ =
      [toL "target", toL "2023", toL "7", toL "IMG_20230715_120000.jpg"] := by
  refine ⟨fun opts src dt => rfl, ?_, by decide⟩
  intro m hm
  interval_cases m <;> decide

/-- Witness for claim C1 at a concrete month below 10. -/
theorem claim_C1_witness :
    target_path_unverified c1Opts [toL "s", toL "a.jpg"] ⟨2024, 3, 1, 0, 0, 0⟩ =
      c1Opts.target_folder ++
        [toL (toString (⟨2024, 3, 1, 0, 0, 0⟩ : NaiveDateTime).year),
          toL (toString (⟨2024, 3, 1, 0, 0, 0⟩ : NaiveDateTime).month),
          lastComponent [toL "s", toL "a.jpg"]] ∧
    (toL (toString 7)).length = 1 :=
  ⟨claim_C1_destination_path.1 c1Opts [toL "s", toL "a.jpg"] ⟨2024, 3, 1, 0, 0, 0⟩,
    claim_C1_destination_path.2.1 7 (by decide)⟩

/-- Claim C4: a source and an existing destination of equal byte length
always resolve to a skip, for every conflict-resolution mode and every
operator answer: the existing file is never overwritten and no renamed
candidate is produced. -/
theorem claim_C4_equal_size_skip (w : World) (source_path target_path : PathBuf)
    (cm : FileConflictResolutionMode) (answer : ChooseAnswer) (n : Nat)
    (hs : metadataLen w source_path = some n)
    (ht : metadataLen w target_path = some n) :
    handle_file_exists_at_target w source_path target_path cm answer = .ok none :=
  handle_equal_size w source_path target_path cm answer n hs ht

/-- Witness for claim C4 at a concrete world with equal sizes. -/
theorem claim_C4_witness :
    handle_file_exists_at_target c4World [toL "s", toL "a.jpg"]
      [toL "t", toL "a.jpg"] .KeepSource .overrideTarget = .ok none :=
  claim_C4_equal_size_skip c4World [toL "s", toL "a.jpg"] [toL "t", toL "a.jpg"]
    .KeepSource .overrideTarget 7 (by decide) (by decide)

/-- Claim C7 counterexample: for the candidate file name `a.b.c` (stem
`a.b`, extension `c`) the claim predicts the alternate name `a.b_new.c`,
but `create_alternative_path` produces `a.c`: `set_extension` replaces
what it takes to be the extension `b_new` of the new name. -/
theorem claim_C7_counterexample :
    file_stem (toL "a.b.c") = some (toL "a.b") ∧
    extensionOf (toL "a.b.c") = some (toL "c") ∧
    create_alternative_path [toL "d", toL "a.b.c"] = [toL "d", toL "a.c"] ∧
    [toL "d", toL "a.c"] ≠ [toL "d", toL "a.b_new.c"] := by decide

/-- Claim C7 (amended): under `KeepBoth` the file name of the alternate candidate is `S_new.E` for a file-stem `S` and extension `E` whenever `S` has
no dot after its first character; when `S` has an inner dot, the final
`set_extension` call truncates `S_new` at its last dot, so the alternate
file name is the part of `S` before its last dot followed by `.E`. -/
theorem claim_C7_amended (p : PathBuf) (s e : FName)
    (hstem : file_stem (lastComponent p) = some s)
    (hext : extensionOf (lastComponent p) = some e) (he : e ≠ []) :
    (hasInnerDot s = false →
      create_alternative_path p = p.dropLast ++ [s ++ toL "_new" ++ '.' :: e]) ∧
    (∀ x q, splitAtLastDotAux s = some (x, q) → x ≠ [] →
      create_alternative_path p = p.dropLast ++ [x ++ '.' :: e]) := by
  constructor
  · intro hid
    rw [create_alternative_path_eq, alt_of_ext_some _ s e hstem hext,
      set_extension_name_eq _ _ _ (stem_append_new_whole s hid),
      if_neg he, List.append_assoc]
  · intro x q hsplit hx
    rw [create_alternative_path_eq, alt_of_ext_some _ s e hstem hext,
      set_extension_name_eq _ _ _ (stem_append_new_of_inner s x q hx hsplit),
      if_neg he]

/-- Witness for claim C7 at the dotless-stem name `a.jpg`. -/
theorem claim_C7_witness :
    create_alternative_path [toL "d", toL "a.jpg"] =
      [toL "d", toL "a.jpg"].dropLast ++ [toL "a" ++ toL "_new" ++ '.' :: toL "jpg"] :=
  (claim_C7_amended [toL "d", toL "a.jpg"] (toL "a") (toL "jpg")
    (by decide) (by decide) (by decide)).1 (by decide)

/-- Claim C10: a command line containing none of the run-mode flags
(`--dry-run`/`-d`, `--copy`/`-c`, `--move`/`-m`) parses to the `Move`
run mode: the program moves files by default. -/
theorem claim_C10_default_move (targetExists : String → Bool) (args : List String)
    (o : Options) (hargs : ∀ a ∈ args, a ∉ modeFlags)
    (h : parse_options targetExists args = .ok o) : o.mode = Mode.Move := by
  rw [parse_options] at h
  split at h
  · exact Except.noConfusion h
  · next st hpl =>
    have hmode := parse_loop_mode args initPState hargs st hpl
    split at h
    · exact Except.noConfusion h
    · next t htf =>
      split at h
      · obtain rfl := Except.ok.inj h
        exact hmode
      · exact Except.noConfusion h

/-- Witness for claim C10 at a concrete mode-flag-free command line. -/
theorem claim_C10_witness :
    ({ verbose := false, mode := .Move, source_folder := [toL "srcdir"],
       target_folder := [toL "tgt"], include_unsupported_file_types := false,
       file_conflict_resolution_mode := .Choose,
       media_creation_date_file_creation_fallback := false,
       delete_skipped_source_duplicates := false } : Options).mode = Mode.Move :=
  claim_C10_default_move (fun _ => true) ["prog", "srcdir", "-t", "tgt"] _
    (by decide) rfl

/-- Claim C2 counterexample: in `Copy` mode (not `DryRun`) with the
delete-skipped-source-duplicates option enabled, a skip leaves the
filesystem unchanged — the source file is not removed. -/
theorem claim_C2_counterexample :
    c2Opts.mode ≠ Mode.DryRun ∧ c2Opts.delete_skipped_source_duplicates = true ∧
    validate_and_resolve_path_problems c2Opts .overrideTarget 2 c2World c2Tgt c2Src =
      .ok none c2World ∧
    lookupP c2World.files c2Src = some 5 := by decide

/-- Claim C2 (amended): whenever placement resolves to a skip — along any
route: equal-size duplicate, `KeepTarget`, the skip answer under
`Choose`, or a skip reached only after one or more `_new` renames — with
the delete-skipped-source-duplicates option enabled, the source file is
removed only in `Move` mode (the final world is the input world minus the
source file); in `DryRun` mode only a report line is printed and in
`Copy` mode nothing happens — in both of those the filesystem is
unchanged. -/
theorem claim_C2_amended (opts : Options) (answer : ChooseAnswer) :
    ∀ (fuel : Nat) (w : World) (cand src : PathBuf) (w2 : World),
      opts.delete_skipped_source_duplicates = true →
      validate_and_resolve_path_problems opts answer fuel w cand src = .ok none w2 →
      (opts.mode = .Move → w2 = { w with files := removeP w.files src }) ∧
      (opts.mode ≠ .Move → w2 = w) := by
  intro fuel
  induction fuel with
  | zero =>
    intro w cand src w2 hflag h
    rw [validate_and_resolve_path_problems] at h
    exact absurd h (by simp)
  | succ n ih =>
    intro w cand src w2 hflag h
    rw [validate_and_resolve_path_problems] at h
    split at h
    · -- the candidate exists: case on the conflict handler
      split at h
      · exact absurd h (by simp)
      · -- a resolution path was produced: the recursion decides the skip
        exact ih w _ src w2 hflag h
      · -- the handler skipped here: the delete branch runs
        split at h
        · -- DryRun
          next m1 hm1 =>
          simp only [Res.ok.injEq] at h
          obtain ⟨-, rfl⟩ := h
          exact ⟨fun hm => absurd (hm1.symm.trans hm) (by simp),
            fun _ => rfl⟩
        · -- Move
          next m2 hm2 =>
          split at h
          · next w3 hrm =>
            simp only [Res.ok.injEq] at h
            obtain ⟨-, rfl⟩ := h
            exact ⟨fun _ => fsRemoveFile_some_eq w src _ hrm,
              fun hm => absurd hm2 hm⟩
          · exact absurd h (by simp)
        · -- Copy
          next m3 hm3 =>
          simp only [Res.ok.injEq] at h
          obtain ⟨-, rfl⟩ := h
          exact ⟨fun hm => absurd (hm3.symm.trans hm) (by simp),
            fun _ => rfl⟩
    · -- the candidate is free: the result is a placement, not a skip
      exact absurd h (by simp)

/-- Witness for claim C2: a concrete `Move`-mode run in which the skip
occurs and the source file is removed from the world. -/
theorem claim_C2_witness :
    validate_and_resolve_path_problems c2wOpts .overrideTarget 1 c2World c2Tgt c2Src =
      .ok none { c2World with files := removeP c2World.files c2Src } ∧
    ({ c2World with files := removeP c2World.files c2Src } : World) =
      { c2World with files := removeP c2World.files c2Src } :=
  ⟨by decide,
    (claim_C2_amended c2wOpts .overrideTarget 1 c2World c2Tgt c2Src
      { c2World with files := removeP c2World.files c2Src }
      (by decide) (by decide)).1 rfl⟩

/-- Claim C3 counterexample: for an image whose `DateTimeOriginal` tag is
absent while `DateTimeDigitized` (2001) and the generic `DateTime` (2002)
are both present with different values, the extraction resolves the
generic `DateTime` value, not the digitized one: the code queries
`DateTimeOriginal`, then `DateTime`, then `DateTimeDigitized`. -/
theorem claim_C3_counterexample :
    extract_date_time (toL "a.jpg") c3Meta false =
      .ok (.ok ⟨2002, 2, 2, 0, 0, 0⟩) ∧
    parseNaiveDateTime "2001-01-01 00:00:00" = some ⟨2001, 1, 1, 0, 0, 0⟩ ∧
    (⟨2002, 2, 2, 0, 0, 0⟩ : NaiveDateTime) ≠ ⟨2001, 1, 1, 0, 0, 0⟩ := by decide

/-- Claim C3 (amended): the embedded-metadata step reads the image date
tags in the priority order `DateTimeOriginal`, then the generic
`DateTime`, then `DateTimeDigitized`; in particular, when the original
tag is absent the generic tag wins over the digitized one. -/
theorem claim_C3_amended (file_name : FName) (meta : EntryMeta) (ex : ExifData)
    (fcf : Bool) (himg : is_image file_name = true) (hex : meta.exifData = some ex) :
    (∀ s dt, ex.dateTimeOriginal = some s → parseNaiveDateTime s = some dt →
      extract_date_time file_name meta fcf = .ok (.ok dt)) ∧
    (∀ s dt, ex.dateTimeOriginal = none → ex.dateTime = some s →
      parseNaiveDateTime s = some dt →
      extract_date_time file_name meta fcf = .ok (.ok dt)) ∧
    (∀ s dt, ex.dateTimeOriginal = none → ex.dateTime = none →
      ex.dateTimeDigitized = some s → parseNaiveDateTime s = some dt →
      extract_date_time file_name meta fcf = .ok (.ok dt)) := by
  refine ⟨?_, ?_, ?_⟩
  · intro s dt h1 h2
    rw [extract_date_time, if_pos himg]
    have himd : image_metadata_date meta = .ok dt := by
      simp only [image_metadata_date, hex, h1, h2]
    rw [himd]
    rfl
  · intro s dt h0 h1 h2
    rw [extract_date_time, if_pos himg]
    have himd : image_metadata_date meta = .ok dt := by
      simp only [image_metadata_date, hex, h0, h1, h2]
    rw [himd]
    rfl
  · intro s dt h0 h1 hdg h2
    rw [extract_date_time, if_pos himg]
    have himd : image_metadata_date meta = .ok dt := by
      simp only [image_metadata_date, hex, h0, h1, hdg, h2]
    rw [himd]
    rfl

/-- Witness for claim C3: with the original tag absent, the generic tag
is the resolved one. -/
theorem claim_C3_witness :
    extract_date_time (toL "a.jpg") c3wMeta false =
      .ok (.ok ⟨2002, 2, 2, 0, 0, 0⟩) :=
  (claim_C3_amended (toL "a.jpg") c3wMeta ⟨none, some "2002-02-02 00:00:00", none⟩
    false (by decide) rfl).2.1 "2002-02-02 00:00:00" ⟨2002, 2, 2, 0, 0, 0⟩
    rfl rfl (by decide)

/-- Claim C5 counterexample: the file name `20191315.jpg` contains exactly
one match of the date pattern, capturing year 2019 and month 13; the
resolution then panics in `NaiveDate::from_ymd` instead of producing the
captured year and month. -/
theorem claim_C5_counterexample :
    countDateMatches (toL "20191315.jpg") = 1 ∧
    firstDateMatch (toL "20191315.jpg") = some (2019, 13) ∧
    extract_media_creation_time_from_filename (toL "20191315.jpg") = .panicked := by
  decide

/-- Claim C5 (amended): filename-based resolution yields nothing unless
the date pattern matches exactly once; a single match whose captured
month is a calendar month (1..12) resolves to that year and month on the
first of the month at midnight; a single match whose captured month is 0
or at least 13 (the pattern admits 00 and 13..19) panics in
`NaiveDate::from_ymd`, aborting the run. -/
theorem claim_C5_amended (f : FName) :
    (countDateMatches f ≠ 1 →
      extract_media_creation_time_from_filename f = .ok none) ∧
    (∀ y m, countDateMatches f = 1 → firstDateMatch f = some (y, m) →
      1 ≤ m → m ≤ 12 →
      extract_media_creation_time_from_filename f =
        .ok (some ⟨(y : Int), m, 1, 0, 0, 0⟩)) ∧
    (∀ y m, countDateMatches f = 1 → firstDateMatch f = some (y, m) →
      (m = 0 ∨ 13 ≤ m) →
      extract_media_creation_time_from_filename f = .panicked) := by
  refine ⟨?_, ?_, ?_⟩
  · intro hc
    rw [extract_media_creation_time_from_filename]
    rcases hcv : countDateMatches f with _ | n
    · rfl
    · cases n with
      | zero => exact absurd hcv hc
      | succ k => rfl
  · intro y m hc hf h1 h12
    have hymd : from_ymd_hms0 (y : Int) m 1 = some ⟨(y : Int), m, 1, 0, 0, 0⟩ := by
      rw [from_ymd_hms0,
        if_pos ⟨h1, h12, le_refl 1, one_le_daysInMonth (y : Int) m⟩]
    simp only [extract_media_creation_time_from_filename, hc, hf, hymd]
  · intro y m hc hf hm
    have hymd : from_ymd_hms0 (y : Int) m 1 = none := by
      rw [from_ymd_hms0, if_neg]
      rintro ⟨ha, hb, -⟩
      rcases hm with rfl | hm <;> omega
    simp only [extract_media_creation_time_from_filename, hc, hf, hymd]

/-- Witness for claim C5: no result without a match, and the documented
resolution on a single valid match. -/
theorem claim_C5_witness :
    extract_media_creation_time_from_filename (toL "nodatehere.jpg") = .ok none ∧
    extract_media_creation_time_from_filename (toL "IMG_20230715_120000.jpg") =
      .ok (some ⟨(2023 : Int), 7, 1, 0, 0, 0⟩) :=
  ⟨(claim_C5_amended (toL "nodatehere.jpg")).1 (by decide),
    (claim_C5_amended (toL "IMG_20230715_120000.jpg")).2.1 2023 7
      (by decide) (by decide) (by decide) (by decide)⟩

/-- Claim C6: under `KeepBoth` (or `Choose` with the operator always
choosing the rename) the recursive re-resolution of a conflicting
destination terminates for every finite filesystem: the fuel
`|candidate name| + |files| + 1` always suffices; each renaming step
produces a candidate strictly different from all earlier candidates (the
iterates of `create_alternative_path` are pairwise distinct); in
particular, with `a.jpg` and `a_new.jpg` both existing at the target the
resolution recurses to the further-renamed `a_new_new.jpg` rather than
looping or overwriting. -/
theorem claim_C6_termination :
    (∀ (opts : Options) (answer : ChooseAnswer) (w : World) (src cand : PathBuf),
      KBcond opts answer →
      validate_and_resolve_path_problems opts answer
        ((lastComponent cand).length + w.files.length + 1) w cand src ≠ .fuelOut) ∧
    (∀ (cand : PathBuf) (i j : Nat), i < j →
      create_alternative_path^[i] cand ≠ create_alternative_path^[j] cand) ∧
    validate_and_resolve_path_problems c6Opts .keepBothFiles 9 c6World
      [toL "t", toL "a.jpg"] [toL "s", toL "a.jpg"] =
      .ok (some [toL "t", toL "a_new_new.jpg"]) c6World := by
  refine ⟨?_, ?_, by decide⟩
  · intro opts answer w src cand hkb
    exact validate_total opts answer hkb w src (lastComponent cand).length cand
      ((lastComponent cand).length + w.files.length + 1) (le_refl _) (le_refl _)
  · intro cand i j hij
    exact alt_orbit_distinct cand i j hij

/-- Witness for claim C6: termination at the concrete two-collision
world. -/
theorem claim_C6_witness :
    KBcond c6Opts ChooseAnswer.keepBothFiles ∧
    validate_and_resolve_path_problems c6Opts .keepBothFiles
      ((lastComponent [toL "t", toL "a.jpg"]).length + c6World.files.length + 1)
      c6World [toL "t", toL "a.jpg"] [toL "s", toL "a.jpg"] ≠ .fuelOut :=
  ⟨Or.inl rfl, claim_C6_termination.1 c6Opts .keepBothFiles c6World
    [toL "s", toL "a.jpg"] [toL "t", toL "a.jpg"] (Or.inl rfl)⟩

/-- Claim C8 counterexample: a stat failure on the source during conflict
handling (`metadata().unwrap()`) panics and aborts the whole run — the
second entry is never processed, instead of the failure surfacing as a
per-file error. -/
theorem claim_C8_counterexample :
    run_loop c8Opts .keepBothFiles 3 [c8Entry, c8Entry2] [] c8World = .panicked := by
  decide

/-- Claim C8 (amended): a failure of a filesystem operation returned as
`Result` (rename/copy/delete/mkdir) surfaces as a per-file error report
tagged with the source path, and the run continues with the next file;
but a stat failure inside conflict handling is an `unwrap` panic that
aborts the run (as is a directory-listing failure at top level). -/
theorem claim_C8_amended :
    (∀ (opts : Options) (answer : ChooseAnswer) (fuel : Nat) (e : Entry)
      (es : List Entry) (ps ps1 : List PathBuf) (w w1 : World) (msg : String)
      (pf : List PathBuf) (rs : List Report) (wf : World),
      handle_file_one opts answer fuel ps w e =
        .ok (ps1, .errorIn e.source_path msg) w1 →
      run_loop opts answer fuel es ps1 w1 = .ok (pf, rs) wf →
      run_loop opts answer fuel (e :: es) ps w =
        .ok (pf, .errorIn e.source_path msg :: rs) wf) ∧
    handle_file_one c8mOpts .keepBothFiles 3 [] c8mWorld c8mEntry =
      .ok ([], .errorIn c8mEntry.source_path "rename failed") c8mWorld2 := by
  constructor
  · intro opts answer fuel e es ps ps1 w w1 msg pf rs wf h1 h2
    rw [run_loop]
    simp only [h1, h2]
  · decide

/-- Witness for claim C8: a per-file date-resolution error is reported
with the path of the file, and the run completes. -/
theorem claim_C8_witness :
    run_loop c8mOpts .keepBothFiles 3 [c8wEntry] [] c8wWorld =
      .ok ([], [.errorIn c8wEntry.source_path
        "Could not determine a media file creation date."]) c8wWorld :=
  claim_C8_amended.1 c8mOpts .keepBothFiles 3 c8wEntry [] [] [] c8wWorld c8wWorld
    "Could not determine a media file creation date." [] [] c8wWorld
    (by decide) (by decide)

/-- Claim C9 counterexample: in `DryRun` mode the target parent is
inserted into the known-parents set although no directory was created or
confirmed to exist — the final world has no directories at all. -/
theorem claim_C9_counterexample :
    run_loop c9Opts .overrideTarget 2 [c9Entry] [] c9World =
      .ok ([[toL "t", toL "2023", toL "7"]],
        [.placed [toL "s", toL "a.jpg"] [toL "t", toL "2023", toL "7", toL "a.jpg"]])
        c9World ∧
    [toL "t", toL "2023", toL "7"] ∉ c9World.dirs := by decide

/-- Claim C9 (amended): the known-parents set never shrinks during a run
(in every mode), and in the `Move` and `Copy` modes every path it
contains at the end is a directory existing in the final world — paths
are inserted only after their directory was created or found recorded; in
`DryRun` mode, parents are inserted without any directory creation or
existence check. -/
theorem claim_C9_amended (opts : Options) (answer : ChooseAnswer) (fuel : Nat)
    (es : List Entry) (ps : List PathBuf) (w : World) (pf : List PathBuf)
    (rs : List Report) (wf : World)
    (h : run_loop opts answer fuel es ps w = .ok (pf, rs) wf) :
    (∀ p ∈ ps, p ∈ pf) ∧
      (opts.mode ≠ .DryRun → (∀ p ∈ ps, p ∈ w.dirs) → ∀ p ∈ pf, p ∈ wf.dirs) :=
  run_loop_invariant opts answer fuel es ps w pf rs wf h

/-- Witness for claim C9: in a `Move` run the inserted parent exists as a
directory of the final world. -/
theorem claim_C9_witness :
    run_loop c9wOpts .overrideTarget 2 [c9Entry] [] c9World =
      .ok ([[toL "t", toL "2023", toL "7"]],
        [.placed [toL "s", toL "a.jpg"] [toL "t", toL "2023", toL "7", toL "a.jpg"]])
        c9wWf ∧
    [toL "t", toL "2023", toL "7"] ∈ c9wWf.dirs :=
  ⟨by decide,
    (claim_C9_amended c9wOpts .overrideTarget 2 [c9Entry] [] c9World
        [[toL "t", toL "2023", toL "7"]]
        [.placed [toL "s", toL "a.jpg"] [toL "t", toL "2023", toL "7", toL "a.jpg"]]
        c9wWf (by decide)).2 (by decide)
      (fun p hp => absurd hp (List.not_mem_nil p))
      [toL "t", toL "2023", toL "7"] (by decide)⟩

end ImageSorter
